import Mathlib

set_option maxHeartbeats 1000000

/-!
Verification development for the client-side PDF text-layer and search
overlay of the pdf-viewer repository.

The embedding covers:
* the `SearchManager` class of `frontend/js/search.js` (`handleSearch`,
  `performSearch`, `clearSearchHighlights`, `clearSearch`, `goToNextMatch`,
  `goToPreviousMatch`, `highlightCurrentMatch`, `scrollToCurrentMatch`);
* the text-overlay builder `createTextLayer` and the selection tracker
  `handleSelectionChange` of the `PDFViewer` class;
* JS string primitives (`trim`, `toLowerCase`, `indexOf`) used by them.

Strings are embedded as `List Char`; `toLowerCase` is modelled
character-wise.  DOM text-span contents are embedded as lists of parts
(text nodes and highlight marker elements); JS object identity of elements
is modelled by a numeric id drawn from a fresh-id counter, so that the
`span.innerHTML = newContent.innerHTML` re-parse (which creates a fresh
element and detaches the one stored in the match record) is observable.
Purely visual styling (colors, cursor, z-index, rotation style string) is
not part of the model; geometric quantities (positions, composed
transforms, font size, scaled width/height) are.
-/

namespace PdfViewer

/-- JS `String.prototype.toLowerCase`, modelled character-wise. -/
def jsToLower (s : List Char) : List Char := s.map Char.toLower

/-- JS `String.prototype.trim`: strip whitespace from both ends. -/
def jsTrim (s : List Char) : List Char :=
  ((s.dropWhile Char.isWhitespace).reverse.dropWhile Char.isWhitespace).reverse

/-- Check whether the second list occurs at the head of the first. -/
def startsWith : List Char → List Char → Bool
  | _, [] => true
  | [], _ :: _ => false
  | a :: as, b :: bs => a = b && startsWith as bs

/-- JS `String.prototype.indexOf`: index of the first occurrence of
`needle` in `hay`, or `none` when absent (JS returns `-1`). -/
def firstIndexOf : List Char → List Char → Option Nat
  | [], needle => if startsWith [] needle then some 0 else none
  | c :: t, needle =>
    if startsWith (c :: t) needle then some 0
    else (firstIndexOf t needle).map (fun i => i + 1)

/-- CSS class carried by a highlight marker element created by the search
module: `search-highlight` (ordinary match) or `search-current`
(the current match). -/
inductive HClass where
  | highlight
  | current
deriving DecidableEq

/-- A highlight marker `<span>` element created by `performSearch`.
`eid` models JS object identity (two structurally equal spans created
separately have different `eid`s); `matchAttr` models the
`data-search-match` attribute; `text` is its `textContent`. -/
structure Elem where
  eid : Nat
  cls : HClass
  matchAttr : Nat
  text : List Char
deriving DecidableEq

/-- One child of an overlay text span after search processing: either a
plain DOM text node or a highlight marker element. -/
inductive Part where
  | txt (s : List Char)
  | el (e : Elem)
deriving DecidableEq

/-- Content of one overlay text span (`<span>` in a `.textLayer`). -/
abbrev Node := List Part

/-- One page's text layer: its spans in document order. -/
abbrev Page := List Node

/-- All text layers of the document, in page order
(`document.querySelectorAll` returns document order). -/
abbrev Doc := List Page

/-- The `textContent` of one part. -/
def Part.textOf : Part → List Char
  | .txt s => s
  | .el e => e.text

/-- The `textContent` of an overlay span: concatenation of its parts. -/
def nodeText (n : Node) : List Char := (n.map Part.textOf).flatten

/-- Replace a highlight marker by a plain text node with the same text
(`parent.replaceChild(document.createTextNode(highlight.textContent),
highlight)` in `clearSearchHighlights`). -/
def unwrapPart : Part → Part
  | .el e => .txt e.text
  | p => p

/-- DOM `Node.normalize()`: merge adjacent text nodes and drop empty
text nodes. -/
def normalizeNode : Node → Node
  | [] => []
  | .el e :: rest => .el e :: normalizeNode rest
  | .txt s :: rest =>
    match normalizeNode rest with
    | .txt t :: rest2 => if s ++ t = [] then rest2 else .txt (s ++ t) :: rest2
    | rest2 => if s = [] then rest2 else .txt s :: rest2

/-- Effect of `clearSearchHighlights` on one overlay span: every
highlight marker is replaced by a text node, then the span is
normalized. -/
def clearNode (n : Node) : Node := normalizeNode (n.map unwrapPart)

/-- Effect of `clearSearchHighlights` on the whole document. -/
def clearDoc (d : Doc) : Doc := d.map (fun pg => pg.map clearNode)

/-- A search match record pushed onto `this.searchMatches`:
`{ element: highlightSpan, pageIndex: pageIndex + 1, spanIndex, text }`.
`element` is the highlight span object as created (before the owning
span's `innerHTML` re-parse). -/
structure SMatch where
  element : Elem
  pageIndex : Nat
  spanIndex : Nat
  text : List Char
deriving DecidableEq

/-- Body of the per-span loop of `performSearch`: scan one overlay span
for the (lowercased) term; on the first occurrence split the text into
before/match/after, build the highlight span (`stored`, the object kept
in the match record) and replace the span's content via an `innerHTML`
re-parse, which creates a fresh element (`live`, the one actually in the
document).  The `while` loop in the source breaks after its first
iteration, so only the first occurrence is processed.  Returns the new
span content, the extended match list and the advanced id counter. -/
def searchNode (termLower : List Char) (termLen : Nat) (pageIdx spanIdx : Nat)
    (ms : List SMatch) (idc : Nat) (n : Node) : Node × List SMatch × Nat :=
  let orig := nodeText n
  match firstIndexOf (jsToLower orig) termLower with
  | none => (n, ms, idc)
  | some i =>
    let before := orig.take i
    let mtext := (orig.drop i).take termLen
    let after := orig.drop (i + termLen)
    let stored : Elem := ⟨idc, .highlight, ms.length, mtext⟩
    let live : Elem := ⟨idc + 1, .highlight, ms.length, mtext⟩
    ((if before = [] then [] else [Part.txt before]) ++
       Part.el live :: (if after = [] then [] else [Part.txt after]),
     ms ++ [⟨stored, pageIdx + 1, spanIdx, mtext⟩], idc + 2)

/-- The `textSpans.forEach((span, spanIndex) => ...)` loop of
`performSearch` over one page's spans. -/
def searchNodes (termLower : List Char) (termLen : Nat) (pageIdx : Nat) :
    Nat → List SMatch → Nat → List Node → List Node × List SMatch × Nat
  | _, ms, idc, [] => ([], ms, idc)
  | si, ms, idc, n :: rest =>
    let r := searchNode termLower termLen pageIdx si ms idc n
    let rr := searchNodes termLower termLen pageIdx (si + 1) r.2.1 r.2.2 rest
    (r.1 :: rr.1, rr.2.1, rr.2.2)

/-- The `textLayers.forEach((textLayer, pageIndex) => ...)` loop of
`performSearch` over all pages. -/
def searchPages (termLower : List Char) (termLen : Nat) :
    Nat → List SMatch → Nat → Doc → Doc × List SMatch × Nat
  | _, ms, idc, [] => ([], ms, idc)
  | pageIdx, ms, idc, pg :: rest =>
    let r := searchNodes termLower termLen pageIdx 0 ms idc pg
    let rr := searchPages termLower termLen (pageIdx + 1) r.2.1 r.2.2 rest
    (r.1 :: rr.1, rr.2.1, rr.2.2)

/-- State of a `SearchManager` instance together with the overlay DOM it
operates on.  `pdfDocLoaded` models `this.pdfViewer.pdfDoc` being
non-null; `nextId` is the fresh-id counter modelling JS object
identity of newly created elements. -/
structure SearchState where
  doc : Doc
  pdfDocLoaded : Bool
  searchMatches : List SMatch
  currentSearchIndex : Int
  nextId : Nat
deriving DecidableEq

/-- State right after the `SearchManager` constructor:
`searchMatches = []`, `currentSearchIndex = -1`. -/
def initState (d : Doc) (loaded : Bool) : SearchState :=
  ⟨d, loaded, [], -1, 0⟩

/-- `clearSearchHighlights()`: unwrap every highlight marker in the
document back to a plain text node and normalize. -/
def clearSearchHighlights (st : SearchState) : SearchState :=
  { st with doc := clearDoc st.doc }

/-- First half of `highlightCurrentMatch`: every element of class
`search-current` goes back to class `search-highlight`. -/
def unmarkPart : Part → Part
  | .el e => .el (if e.cls = HClass.current then { e with cls := HClass.highlight } else e)
  | p => p

/-- Remove current-match marking throughout the document. -/
def unmarkDoc (d : Doc) : Doc :=
  d.map (fun pg => pg.map (fun n => n.map unmarkPart))

/-- Give class `search-current` to the first element (in order) of a span
whose `data-search-match` attribute is `i`; the Boolean reports whether
one was found. -/
def markFirstInNode (i : Nat) : Node → Node × Bool
  | [] => ([], false)
  | Part.el e :: rest =>
    if e.matchAttr = i then (Part.el { e with cls := HClass.current } :: rest, true)
    else
      let r := markFirstInNode i rest
      (Part.el e :: r.1, r.2)
  | Part.txt s :: rest =>
    let r := markFirstInNode i rest
    (Part.txt s :: r.1, r.2)

/-- Extend `markFirstInNode` to one page. -/
def markFirstInPage (i : Nat) : Page → Page × Bool
  | [] => ([], false)
  | n :: rest =>
    let r := markFirstInNode i n
    if r.2 then (r.1 :: rest, true)
    else
      let rr := markFirstInPage i rest
      (r.1 :: rr.1, rr.2)

/-- Extend `markFirstInNode` to the document: this is
`document.querySelector('[data-search-match="i"]')` (first match in
document order) followed by the class swap to `search-current`. -/
def markFirstInDoc (i : Nat) : Doc → Doc × Bool
  | [] => ([], false)
  | pg :: rest =>
    let r := markFirstInPage i pg
    if r.2 then (r.1 :: rest, true)
    else
      let rr := markFirstInDoc i rest
      (r.1 :: rr.1, rr.2)

/-- `highlightCurrentMatch()`: demote all `search-current` elements to
`search-highlight`; then, if the current index is in range, promote the
first document element whose `data-search-match` attribute equals it. -/
def highlightCurrentMatch (st : SearchState) : SearchState :=
  let d1 := unmarkDoc st.doc
  if 0 ≤ st.currentSearchIndex ∧ st.currentSearchIndex < (st.searchMatches.length : Int) then
    { st with doc := (markFirstInDoc st.currentSearchIndex.toNat d1).1 }
  else
    { st with doc := d1 }

/-- `performSearch(searchTerm)`: clear previous highlights and match
state; bail out when no document is loaded or the term is empty;
otherwise scan all pages, store the matches, and when at least one was
found set the current index to 0 and mark it. -/
def performSearch (st : SearchState) (searchTerm : List Char) : SearchState :=
  let st1 := { st with doc := clearDoc st.doc, searchMatches := ([] : List SMatch),
                       currentSearchIndex := (-1 : Int) }
  if st.pdfDocLoaded = false ∨ searchTerm = [] then st1
  else
    let r := searchPages (jsToLower searchTerm) searchTerm.length 0 [] st1.nextId st1.doc
    let st2 := { st1 with doc := r.1, searchMatches := r.2.1, nextId := r.2.2 }
    if 0 < st2.searchMatches.length then
      highlightCurrentMatch { st2 with currentSearchIndex := 0 }
    else st2

/-- `handleSearch()`: trim the input value; an empty term clears
highlights and match state; a one-character term is a no-op (wait for at
least 2 characters); otherwise run `performSearch`. -/
def handleSearch (st : SearchState) (inputValue : List Char) : SearchState :=
  let searchTerm := jsTrim inputValue
  if searchTerm.length = 0 then
    { clearSearchHighlights st with searchMatches := ([] : List SMatch),
                                    currentSearchIndex := (-1 : Int) }
  else if searchTerm.length < 2 then st
  else performSearch st searchTerm

/-- `goToNextMatch()`: with no matches do nothing; otherwise advance the
current index by one with JS `%` wraparound (truncated remainder) and
re-mark.  (`scrollToCurrentMatch` only scrolls; see
`scrollTargetElem`.) -/
def goToNextMatch (st : SearchState) : SearchState :=
  if st.searchMatches.length = 0 then st
  else
    highlightCurrentMatch
      { st with currentSearchIndex :=
          (st.currentSearchIndex + 1).tmod (st.searchMatches.length : Int) }

/-- `goToPreviousMatch()`: with no matches do nothing; otherwise retreat
the current index with wraparound (`<= 0 ? length - 1 : index - 1`) and
re-mark. -/
def goToPreviousMatch (st : SearchState) : SearchState :=
  if st.searchMatches.length = 0 then st
  else
    highlightCurrentMatch
      { st with currentSearchIndex :=
          if st.currentSearchIndex ≤ 0 then (st.searchMatches.length : Int) - 1
          else st.currentSearchIndex - 1 }

/-- `clearSearch()` (minus the input-field reset, which is UI chrome):
clear highlights, match list and current index. -/
def clearSearch (st : SearchState) : SearchState :=
  { clearSearchHighlights st with searchMatches := ([] : List SMatch),
                                  currentSearchIndex := (-1 : Int) }

/-- The highlight marker elements of one span, in order. -/
def nodeEls (n : Node) : List Elem :=
  n.filterMap (fun p => match p with | .el e => some e | .txt _ => none)

/-- The highlight marker elements of one page, in order. -/
def pageEls (pg : Page) : List Elem := (pg.map nodeEls).flatten

/-- All highlight marker elements present in the live document, in
document order. -/
def docEls (d : Doc) : List Elem := (d.map pageEls).flatten

/-- The `data-search-match` attributes present in the document, in
document order. -/
def docAttrs (d : Doc) : List Nat := (docEls d).map Elem.matchAttr

/-- The element object identities present in the document. -/
def docElemIds (d : Doc) : List Nat := (docEls d).map Elem.eid

/-- `document.querySelector('[data-search-match="i"]')`: the first
element in document order carrying the attribute value `i`. -/
def queryMatchAttr (d : Doc) (i : Nat) : Option Elem :=
  (docEls d).find? (fun e => e.matchAttr = i)

/-- The element that `scrollToCurrentMatch()` scrolls into view: found
by an attribute query on the live document, only when the current index
is in range (mirrors its guard and its `querySelector` call). -/
def scrollTargetElem (st : SearchState) : Option Elem :=
  if 0 ≤ st.currentSearchIndex ∧ st.currentSearchIndex < (st.searchMatches.length : Int) then
    queryMatchAttr st.doc st.currentSearchIndex.toNat
  else none

/-- Specification-side description (from the spec's words, for the
refinement comparison) of the single match `performSearch` may record
for one span: the substring of the span's text at the first
case-insensitive occurrence of the term. -/
def nodeFirstMatch (searchTerm : List Char) (n : Node) : Option (List Char) :=
  (firstIndexOf (jsToLower (nodeText n)) (jsToLower searchTerm)).map
    (fun i => ((nodeText n).drop i).take searchTerm.length)

/-- Specification-side match list for one page (from the spec's words):
scan spans in node order, at most one record per span containing the
term, carrying the 1-based page number, the span index and the matched
substring. -/
def specPage (searchTerm : List Char) (pageIdx : Nat) : Nat → Page → List (Nat × Nat × List Char)
  | _, [] => []
  | si, n :: rest =>
    (match nodeFirstMatch searchTerm n with
     | some t => [(pageIdx + 1, si, t)]
     | none => []) ++ specPage searchTerm pageIdx (si + 1) rest

/-- Specification-side match list for the whole document (from the
spec's words): page order, then node order. -/
def specDoc (searchTerm : List Char) : Nat → Doc → List (Nat × Nat × List Char)
  | _, [] => []
  | pageIdx, pg :: rest =>
    specPage searchTerm pageIdx 0 pg ++ specDoc searchTerm (pageIdx + 1) rest

/-- Observable content of a match record (everything except the stored
element object). -/
def matchProj (m : SMatch) : Nat × Nat × List Char := (m.pageIndex, m.spanIndex, m.text)

/-- A span content consisting of plain text nodes only (no highlight
markers). -/
def nodeAllPlain (n : Node) : Bool :=
  n.all (fun p => match p with | .txt _ => true | .el _ => false)

/-- A document with no highlight markers anywhere. -/
def docAllPlain (d : Doc) : Bool := d.all (fun pg => pg.all nodeAllPlain)

/-- The text contents of all overlay spans, page by page. -/
def docTexts (d : Doc) : List (List (List Char)) := d.map (fun pg => pg.map nodeText)

/-- Representation invariant of `SearchManager`: the current index is
`-1` exactly when the match list is empty, and otherwise lies in
`[0, match count)`. -/
def searchInvariant (st : SearchState) : Prop :=
  (st.searchMatches = [] → st.currentSearchIndex = -1) ∧
  (st.searchMatches ≠ [] →
    0 ≤ st.currentSearchIndex ∧ st.currentSearchIndex < (st.searchMatches.length : Int))

/-- State of the selection tracker of the `PDFViewer` class:
`lastSelectedText` (initially `null`), the character-count display and
the visibility flags it drives. -/
structure SelectionState where
  lastSelectedText : Option (List Char)
  selectionCount : Nat
  selectionInfoVisible : Bool
  contextMenuVisible : Bool
deriving DecidableEq

/-- Body of the settle-delay callback of `handleSelectionChange`: read
the settled selection (`getSelectedText()` trims the raw selection
string); a non-empty selection is retained in `lastSelectedText` and
shown; an empty one only hides the indicator and the context menu. -/
def handleSelectionChange (st : SelectionState) (rawSelection : List Char) : SelectionState :=
  let selectedText := jsTrim rawSelection
  if 0 < selectedText.length then
    { st with lastSelectedText := some selectedText,
              selectionCount := selectedText.length,
              selectionInfoVisible := true }
  else
    { st with selectionCount := 0,
              selectionInfoVisible := false,
              contextMenuVisible := false }

/-- A whole sequence of settled selection-change events, in order. -/
def runSelectionEvents (st : SelectionState) (events : List (List Char)) : SelectionState :=
  events.foldl handleSelectionChange st

/-- The most recent non-empty (after trimming) selection of a sequence
of events, or the initial value when none is non-empty. -/
def lastNonEmptySelection (init : Option (List Char)) : List (List Char) → Option (List Char)
  | [] => init
  | e :: rest => lastNonEmptySelection (if jsTrim e = [] then init else some (jsTrim e)) rest

/-- A 2D affine transform `[a, b, c, d, e, f]` as used by the rendering
library: array index 0 is `a`, 1 is `b`, 2 is `c`, 3 is `d`, 4 is `e`,
5 is `f`. -/
structure Mat where
  a : ℚ
  b : ℚ
  c : ℚ
  d : ℚ
  e : ℚ
  f : ℚ
deriving DecidableEq

/-- Modelled from the spec: `pdfjsLib.Util.transform(m1, m2)` of the
external rendering library, described in the spec as standard 2×3
affine composition (viewport ∘ item). -/
def composeTransform (m1 m2 : Mat) : Mat :=
  ⟨m1.a * m2.a + m1.c * m2.b,
   m1.b * m2.a + m1.d * m2.b,
   m1.a * m2.c + m1.c * m2.d,
   m1.b * m2.c + m1.d * m2.d,
   m1.a * m2.e + m1.c * m2.f + m1.e,
   m1.b * m2.e + m1.d * m2.f + m1.f⟩

/-- A text item produced by the rendering library's `getTextContent()`.
`transform = none` models a malformed/missing transform matrix, on
which `pdfjsLib.Util.transform` throws (caught by the per-item
`try`/`catch`). -/
structure TextItem where
  str : List Char
  transform : Option Mat
  fontName : List Char
  dir : List Char
  width : ℚ
  height : ℚ
deriving DecidableEq

/-- An overlay span created by `createTextLayer`, with its composed
transform and the geometric style values computed from it
(`left`/`top` from the translation components, scaled width/height when
the item carries truthy dimensions).  The font size is derived from the
stored composed transform by `fontSizePx`. -/
structure Span where
  text : List Char
  dir : List Char
  transform : Mat
  left : ℚ
  top : ℚ
  fontName : List Char
  width : Option ℚ
  height : Option ℚ
deriving DecidableEq

/-- The guard `if (!textItem.str || textItem.str.trim() === '') continue;`
of `createTextLayer`: an item is kept only when its string is truthy
(non-empty) and does not trim to the empty string. -/
def itemKept (it : TextItem) : Bool :=
  !(it.str.isEmpty) && !((jsTrim it.str).isEmpty)

/-- The `try` body of `createTextLayer` for one item whose transform
matrix `m` is present: compose with the viewport transform, read
position off the translation components, and scale the item's
width/height when both are truthy (JS: non-zero). -/
def buildSpan (viewportTransform : Mat) (it : TextItem) (m : Mat) : Span :=
  let t := composeTransform viewportTransform m
  { text := it.str
    dir := it.dir
    transform := t
    left := t.e
    top := t.f
    fontName := it.fontName
    width := if it.width ≠ 0 ∧ it.height ≠ 0 then some |t.a * it.width + t.c * it.height| else none
    height := if it.width ≠ 0 ∧ it.height ≠ 0 then some |t.b * it.width + t.d * it.height| else none }

/-- One loop iteration of `createTextLayer`: `none` when the item is
skipped (empty text via `continue`, or the `try` block throws on a
missing/malformed transform and the `catch` only logs). -/
def mkSpan (viewportTransform : Mat) (it : TextItem) : Option Span :=
  match it.transform with
  | none => none
  | some m => some (buildSpan viewportTransform it m)

/-- `createTextLayer(textContent, container, viewport)`: the ordered
list of overlay spans appended to the container.  Every item is visited;
a skipped item contributes nothing and processing continues. -/
def createTextLayer (viewportTransform : Mat) (items : List TextItem) : List Span :=
  items.filterMap (fun it => if itemKept it then mkSpan viewportTransform it else none)

/-- An item that yields a span: non-empty text and a well-formed
transform. -/
def goodItem (it : TextItem) : Bool := itemKept it && it.transform.isSome

/-- The font size (in px) the overlay builder assigns to a span:
`Math.sqrt(transform[2] * transform[2] + transform[3] * transform[3])`
on the composed transform, i.e. the components at array indices 2 and 3. -/
noncomputable def fontSizePx (s : Span) : ℝ :=
  Real.sqrt ((s.transform.c : ℝ) * (s.transform.c : ℝ) + (s.transform.d : ℝ) * (s.transform.d : ℝ))

/-- The `data-search-match` attributes of the stored match records, in
order. -/
def attrList (ms : List SMatch) : List Nat := ms.map (fun m => m.element.matchAttr)

/-- Identity viewport transform (scale 1.0), used as a concrete input. -/
def identityViewport : Mat := ⟨1, 0, 0, 1, 0, 0⟩

/-- Concrete sheared item transform `[1, 2, 3, 4, 0, 0]` whose array
components 1 and 2 differ, used as a concrete input. -/
def shearItem : TextItem :=
  ⟨("Hello").toList, some ⟨1, 2, 3, 4, 0, 0⟩, [], ("ltr").toList, 0, 0⟩

/-- Concrete unrotated item with transform `[12, 0, 0, 12, 50, 100]`
(the specification's scenario), used as a concrete input. -/
def helloItem : TextItem :=
  ⟨("Hello").toList, some ⟨12, 0, 0, 12, 50, 100⟩, [], ("ltr").toList, 0, 0⟩

/-- The live (re-parsed) counterpart of a stored match element: same
class, attribute and text, but a distinct object identity (the id the
fresh-id counter handed out right after the stored one). -/
def bumpElem (m : SMatch) : Elem :=
  ⟨m.element.eid + 1, m.element.cls, m.element.matchAttr, m.element.text⟩

/-- Element-level view of the first half of `highlightCurrentMatch`:
a `search-current` element becomes `search-highlight`. -/
def unmarkElem (e : Elem) : Elem :=
  if e.cls = HClass.current then ⟨e.eid, HClass.highlight, e.matchAttr, e.text⟩ else e

/-- Element-level view of the `querySelector` + class-swap second half
of `highlightCurrentMatch`: promote the first element carrying the
attribute value `i` to `search-current`. -/
def markFirstEls (i : Nat) : List Elem → List Elem
  | [] => []
  | e :: rest =>
    if e.matchAttr = i then ⟨e.eid, HClass.current, e.matchAttr, e.text⟩ :: rest
    else e :: markFirstEls i rest

@[simp] theorem Part.textOf_txt (s : List Char) : (Part.txt s).textOf = s := rfl

@[simp] theorem Part.textOf_el (e : Elem) : (Part.el e).textOf = e.text := rfl

theorem nodeText_nil : nodeText [] = [] := rfl

theorem nodeText_cons (p : Part) (n : Node) :
    nodeText (p :: n) = p.textOf ++ nodeText n := by
  simp [nodeText]

theorem textOf_unwrapPart (p : Part) : (unwrapPart p).textOf = p.textOf := by
  cases p <;> rfl

theorem unwrapPart_is_txt (p : Part) : ∃ s, unwrapPart p = Part.txt s := by
  cases p with
  | txt s => exact ⟨s, rfl⟩
  | el e => exact ⟨e.text, rfl⟩

theorem nodeText_unwrap (n : Node) : nodeText (n.map unwrapPart) = nodeText n := by
  induction n with
  | nil => rfl
  | cons p rest ih => simp [nodeText_cons, textOf_unwrapPart, ih]

theorem allPlain_unwrap (n : Node) : nodeAllPlain (n.map unwrapPart) = true := by
  induction n with
  | nil => rfl
  | cons p rest ih =>
    obtain ⟨s, hs⟩ := unwrapPart_is_txt p
    simp [nodeAllPlain, hs]
    simpa [nodeAllPlain] using ih

theorem normalizeNode_of_allPlain (n : Node) (h : nodeAllPlain n = true) :
    normalizeNode n = if nodeText n = [] then [] else [Part.txt (nodeText n)] := by
  induction n with
  | nil => simp [normalizeNode, nodeText]
  | cons p rest ih =>
    cases p with
    | el e => simp [nodeAllPlain] at h
    | txt s =>
      have hrest : nodeAllPlain rest = true := by
        simpa [nodeAllPlain] using h
      have ihr := ih hrest
      by_cases hr : nodeText rest = []
      · rw [show normalizeNode (Part.txt s :: rest)
              = (match normalizeNode rest with
                 | Part.txt t :: rest2 => if s ++ t = [] then rest2 else Part.txt (s ++ t) :: rest2
                 | rest2 => if s = [] then rest2 else Part.txt s :: rest2) from rfl]
        rw [ihr]
        simp [hr, nodeText_cons]
      · rw [show normalizeNode (Part.txt s :: rest)
              = (match normalizeNode rest with
                 | Part.txt t :: rest2 => if s ++ t = [] then rest2 else Part.txt (s ++ t) :: rest2
                 | rest2 => if s = [] then rest2 else Part.txt s :: rest2) from rfl]
        rw [ihr]
        simp [hr, nodeText_cons]

theorem clearNode_eq (n : Node) :
    clearNode n = if nodeText n = [] then [] else [Part.txt (nodeText n)] := by
  unfold clearNode
  rw [normalizeNode_of_allPlain _ (allPlain_unwrap n), nodeText_unwrap]

theorem clearNode_text (n : Node) : nodeText (clearNode n) = nodeText n := by
  rw [clearNode_eq]
  by_cases h : nodeText n = [] <;> simp [h, nodeText_cons, nodeText_nil]

theorem nodeEls_clearNode (n : Node) : nodeEls (clearNode n) = [] := by
  rw [clearNode_eq]
  by_cases h : nodeText n = [] <;> simp [h, nodeEls]

theorem allPlain_clearNode (n : Node) : nodeAllPlain (clearNode n) = true := by
  rw [clearNode_eq]
  by_cases h : nodeText n = []
  · simp [h, nodeAllPlain]
  · simp [h, nodeAllPlain]

theorem docEls_clearDoc (d : Doc) : docEls (clearDoc d) = [] := by
  simp [docEls, clearDoc, pageEls, nodeEls_clearNode]

theorem docAllPlain_clearDoc (d : Doc) : docAllPlain (clearDoc d) = true := by
  simp [docAllPlain, clearDoc, allPlain_clearNode]

theorem docTexts_clearDoc (d : Doc) : docTexts (clearDoc d) = docTexts d := by
  simp [docTexts, clearDoc, clearNode_text]

/-- C5: for every prior search state, invoking search with a term that
trims to length exactly 1 is a complete no-op: the whole
`SearchManager` state — match list, current index, and all highlight
markers in the overlay document — is left unchanged
(`if (searchTerm.length < 2) return`). -/
theorem search_term_length_one_noop (st : SearchState) (inputValue : List Char)
    (h : (jsTrim inputValue).length = 1) : handleSearch st inputValue = st := by
  simp [handleSearch, h]

/-- Witness for C5 at the concrete input value consisting of the single
character a. -/
theorem search_term_length_one_noop_witness :
    (jsTrim (("a").toList)).length = 1 ∧
      handleSearch (initState [] true) (("a").toList) = initState [] true :=
  ⟨by decide, search_term_length_one_noop (initState [] true) (("a").toList) (by decide)⟩

/-- C6: invoking search with a term that trims to length 0 empties the
match list, removes every highlight marker element from the overlay
document, and resets the current index to none (-1). -/
theorem search_term_empty_clears (st : SearchState) (inputValue : List Char)
    (h : (jsTrim inputValue).length = 0) :
    (handleSearch st inputValue).searchMatches = [] ∧
      (handleSearch st inputValue).currentSearchIndex = -1 ∧
      docEls (handleSearch st inputValue).doc = [] := by
  have h0 : jsTrim inputValue = [] := List.length_eq_zero.mp h
  refine ⟨?_, ?_, ?_⟩ <;>
    simp [handleSearch, h0, clearSearchHighlights, docEls_clearDoc]

/-- Witness for C6 at the concrete input value consisting of two spaces,
starting from a state that still carries a highlight marker. -/
theorem search_term_empty_clears_witness :
    (jsTrim (("  ").toList)).length = 0 ∧
      ((handleSearch
          ⟨[[[Part.el ⟨5, HClass.current, 0, ("cat").toList⟩]]], true,
            [⟨⟨4, HClass.highlight, 0, ("cat").toList⟩, 1, 0, ("cat").toList⟩], 0, 6⟩
          (("  ").toList)).searchMatches = [] ∧
        (handleSearch
          ⟨[[[Part.el ⟨5, HClass.current, 0, ("cat").toList⟩]]], true,
            [⟨⟨4, HClass.highlight, 0, ("cat").toList⟩, 1, 0, ("cat").toList⟩], 0, 6⟩
          (("  ").toList)).currentSearchIndex = -1 ∧
        docEls (handleSearch
          ⟨[[[Part.el ⟨5, HClass.current, 0, ("cat").toList⟩]]], true,
            [⟨⟨4, HClass.highlight, 0, ("cat").toList⟩, 1, 0, ("cat").toList⟩], 0, 6⟩
          (("  ").toList)).doc = []) :=
  ⟨by decide,
   search_term_empty_clears
     ⟨[[[Part.el ⟨5, HClass.current, 0, ("cat").toList⟩]]], true,
       [⟨⟨4, HClass.highlight, 0, ("cat").toList⟩, 1, 0, ("cat").toList⟩], 0, 6⟩
     (("  ").toList) (by decide)⟩

theorem handleSelectionChange_last (st : SelectionState) (rawSelection : List Char) :
    (handleSelectionChange st rawSelection).lastSelectedText
      = if jsTrim rawSelection = [] then st.lastSelectedText
        else some (jsTrim rawSelection) := by
  by_cases h : jsTrim rawSelection = []
  · simp [handleSelectionChange, h]
  · have : 0 < (jsTrim rawSelection).length := List.length_pos.mpr h
    simp [handleSelectionChange, h, this]

theorem runSel_last (events : List (List Char)) :
    ∀ st : SelectionState,
      (runSelectionEvents st events).lastSelectedText
        = lastNonEmptySelection st.lastSelectedText events := by
  induction events with
  | nil => intro st; rfl
  | cons e rest ih =>
    intro st
    have hstep := handleSelectionChange_last st e
    by_cases h : jsTrim e = []
    · simp only [runSelectionEvents, List.foldl_cons, lastNonEmptySelection, h, if_pos]
      have := ih (handleSelectionChange st e)
      simp only [runSelectionEvents] at this
      rw [this, hstep]
      simp [h]
    · simp only [runSelectionEvents, List.foldl_cons, lastNonEmptySelection, h, if_neg]
      have := ih (handleSelectionChange st e)
      simp only [runSelectionEvents] at this
      rw [this, hstep]
      simp [h]

theorem highlight_searchMatches (st : SearchState) :
    (highlightCurrentMatch st).searchMatches = st.searchMatches := by
  simp only [highlightCurrentMatch]
  split <;> rfl

theorem highlight_currentSearchIndex (st : SearchState) :
    (highlightCurrentMatch st).currentSearchIndex = st.currentSearchIndex := by
  simp only [highlightCurrentMatch]
  split <;> rfl

theorem goToNextMatch_matches (st : SearchState) :
    (goToNextMatch st).searchMatches = st.searchMatches := by
  unfold goToNextMatch
  split
  · rfl
  · rw [highlight_searchMatches]

theorem goToNextMatch_index (st : SearchState) (h0 : st.searchMatches.length ≠ 0) :
    (goToNextMatch st).currentSearchIndex
      = (st.currentSearchIndex + 1).tmod (st.searchMatches.length : Int) := by
  unfold goToNextMatch
  rw [if_neg h0, highlight_currentSearchIndex]

theorem goToNextMatch_iterate (k : Nat) :
    ∀ st : SearchState, st.searchMatches.length ≠ 0 →
      0 ≤ st.currentSearchIndex → st.currentSearchIndex < (st.searchMatches.length : Int) →
      (goToNextMatch^[k] st).searchMatches = st.searchMatches ∧
        (goToNextMatch^[k] st).currentSearchIndex
          = (st.currentSearchIndex + k) % (st.searchMatches.length : Int) := by
  induction k with
  | zero =>
    intro st h0 hlo hhi
    exact ⟨rfl, by simpa using (Int.emod_eq_of_lt hlo hhi).symm⟩
  | succ k ih =>
    intro st h0 hlo hhi
    have hstep_m : (goToNextMatch st).searchMatches = st.searchMatches :=
      goToNextMatch_matches st
    have hNpos : 0 < (st.searchMatches.length : Int) := by
      exact_mod_cast Nat.pos_of_ne_zero h0
    have hstep_i : (goToNextMatch st).currentSearchIndex
        = (st.currentSearchIndex + 1) % (st.searchMatches.length : Int) := by
      rw [goToNextMatch_index st h0]
      exact Int.tmod_eq_emod (by omega) (by omega)
    have hlo2 : 0 ≤ (goToNextMatch st).currentSearchIndex := by
      rw [hstep_i]; exact Int.emod_nonneg _ (by omega)
    have hhi2 : (goToNextMatch st).currentSearchIndex
        < ((goToNextMatch st).searchMatches.length : Int) := by
      rw [hstep_i, hstep_m]; exact Int.emod_lt_of_pos _ hNpos
    have h02 : (goToNextMatch st).searchMatches.length ≠ 0 := by rw [hstep_m]; exact h0
    obtain ⟨ihm, ihi⟩ := ih (goToNextMatch st) h02 hlo2 hhi2
    rw [Function.iterate_succ_apply]
    refine ⟨by rw [ihm, hstep_m], ?_⟩
    rw [ihi, hstep_m, hstep_i]
    rw [Int.emod_add_emod]
    push_cast
    ring_nf

/-- C4: with N ≥ 1 matches and a valid current index (one in `[0, N)`,
which is the only kind a reachable state carries), `goToNextMatch`
advances the index to `(index + 1) mod N`, `goToPreviousMatch` retreats
it to `N - 1` from 0 and to `index - 1` otherwise, and iterating
`goToNextMatch` N times returns the index to its starting value. -/
theorem search_navigation_cyclic (st : SearchState) (N : Nat)
    (hN : st.searchMatches.length = N) (h1 : 1 ≤ N)
    (hlo : 0 ≤ st.currentSearchIndex) (hhi : st.currentSearchIndex < (N : Int)) :
    (goToNextMatch st).currentSearchIndex = (st.currentSearchIndex + 1) % (N : Int) ∧
      (goToPreviousMatch st).currentSearchIndex
        = (if st.currentSearchIndex = 0 then (N : Int) - 1 else st.currentSearchIndex - 1) ∧
      (goToNextMatch^[N] st).currentSearchIndex = st.currentSearchIndex := by
  have h0 : st.searchMatches.length ≠ 0 := by omega
  refine ⟨?_, ?_, ?_⟩
  · rw [goToNextMatch_index st h0, hN]
    exact Int.tmod_eq_emod (by omega) (by omega)
  · unfold goToPreviousMatch
    rw [if_neg h0, highlight_currentSearchIndex, hN]
    by_cases hz : st.currentSearchIndex = 0
    · rw [if_pos hz, if_pos (by omega)]
    · rw [if_neg hz, if_neg (by omega)]
  · obtain ⟨-, hi⟩ := goToNextMatch_iterate N st h0 hlo (by rw [hN]; exact hhi)
    rw [hi, hN]
    have : (st.currentSearchIndex + (N : Int)) % (N : Int) = st.currentSearchIndex % (N : Int) := by
      conv_lhs => rw [show st.currentSearchIndex + (N : Int)
        = st.currentSearchIndex + (N : Int) * 1 by ring]
      exact Int.add_mul_emod_self_left _ _ _
    rw [this, Int.emod_eq_of_lt hlo hhi]

/-- Witness for C4 at a concrete two-match state with current index 1. -/
theorem search_navigation_cyclic_witness :
    ((⟨[], true, [⟨⟨0, HClass.highlight, 0, [] ⟩, 1, 0, []⟩,
        ⟨⟨2, HClass.highlight, 1, []⟩, 1, 1, []⟩], 1, 4⟩ : SearchState).searchMatches.length = 2 ∧
      1 ≤ 2 ∧
      (0 : Int) ≤ (⟨[], true, [⟨⟨0, HClass.highlight, 0, []⟩, 1, 0, []⟩,
        ⟨⟨2, HClass.highlight, 1, []⟩, 1, 1, []⟩], 1, 4⟩ : SearchState).currentSearchIndex ∧
      (⟨[], true, [⟨⟨0, HClass.highlight, 0, []⟩, 1, 0, []⟩,
        ⟨⟨2, HClass.highlight, 1, []⟩, 1, 1, []⟩], 1, 4⟩ : SearchState).currentSearchIndex < (2 : Int)) ∧
    ((goToNextMatch (⟨[], true, [⟨⟨0, HClass.highlight, 0, []⟩, 1, 0, []⟩,
        ⟨⟨2, HClass.highlight, 1, []⟩, 1, 1, []⟩], 1, 4⟩ : SearchState)).currentSearchIndex
        = ((⟨[], true, [⟨⟨0, HClass.highlight, 0, []⟩, 1, 0, []⟩,
        ⟨⟨2, HClass.highlight, 1, []⟩, 1, 1, []⟩], 1, 4⟩ : SearchState).currentSearchIndex + 1) % (2 : Int) ∧
      (goToPreviousMatch (⟨[], true, [⟨⟨0, HClass.highlight, 0, []⟩, 1, 0, []⟩,
        ⟨⟨2, HClass.highlight, 1, []⟩, 1, 1, []⟩], 1, 4⟩ : SearchState)).currentSearchIndex
        = (if (⟨[], true, [⟨⟨0, HClass.highlight, 0, []⟩, 1, 0, []⟩,
        ⟨⟨2, HClass.highlight, 1, []⟩, 1, 1, []⟩], 1, 4⟩ : SearchState).currentSearchIndex = 0
           then (2 : Int) - 1
           else (⟨[], true, [⟨⟨0, HClass.highlight, 0, []⟩, 1, 0, []⟩,
        ⟨⟨2, HClass.highlight, 1, []⟩, 1, 1, []⟩], 1, 4⟩ : SearchState).currentSearchIndex - 1) ∧
      (goToNextMatch^[2] (⟨[], true, [⟨⟨0, HClass.highlight, 0, []⟩, 1, 0, []⟩,
        ⟨⟨2, HClass.highlight, 1, []⟩, 1, 1, []⟩], 1, 4⟩ : SearchState)).currentSearchIndex
        = (⟨[], true, [⟨⟨0, HClass.highlight, 0, []⟩, 1, 0, []⟩,
        ⟨⟨2, HClass.highlight, 1, []⟩, 1, 1, []⟩], 1, 4⟩ : SearchState).currentSearchIndex) :=
  ⟨⟨by decide, by decide, by decide, by decide⟩,
   search_navigation_cyclic _ 2 (by decide) (by decide) (by decide) (by decide)⟩

theorem performSearch_matches_idx (st : SearchState) (term : List Char) :
    ((performSearch st term).searchMatches = [] ∧
        (performSearch st term).currentSearchIndex = -1) ∨
      ((performSearch st term).searchMatches ≠ [] ∧
        (performSearch st term).currentSearchIndex = 0) := by
  simp only [performSearch]
  split
  · exact Or.inl ⟨rfl, rfl⟩
  · split
    · rename_i hpos
      rw [highlight_searchMatches, highlight_currentSearchIndex]
      exact Or.inr ⟨List.ne_nil_of_length_pos hpos, rfl⟩
    · rename_i hpos
      refine Or.inl ⟨?_, rfl⟩
      simp only [Nat.not_lt, Nat.le_zero] at hpos
      exact List.length_eq_zero.mp hpos

theorem performSearch_invariant (st : SearchState) (term : List Char) :
    searchInvariant (performSearch st term) := by
  rcases performSearch_matches_idx st term with ⟨h1, h2⟩ | ⟨h1, h2⟩
  · exact ⟨fun _ => h2, fun hne => absurd h1 hne⟩
  · refine ⟨fun h => absurd h h1, fun _ => ⟨by rw [h2], ?_⟩⟩
    rw [h2]
    exact_mod_cast List.length_pos.mpr h1

/-- C9: every search-module operation — the constructor, search with any
term (both the raw `performSearch` and the length-dispatching
`handleSearch`), next/previous navigation, and clearing — preserves the
invariant that the current search index is -1 exactly when the match
list is empty and otherwise lies in `[0, match count)`. -/
theorem search_index_invariant (d : Doc) (b : Bool) (st : SearchState)
    (term inputValue : List Char) (hst : searchInvariant st) :
    searchInvariant (initState d b) ∧
      searchInvariant (handleSearch st inputValue) ∧
      searchInvariant (performSearch st term) ∧
      searchInvariant (goToNextMatch st) ∧
      searchInvariant (goToPreviousMatch st) ∧
      searchInvariant (clearSearch st) := by
  refine ⟨⟨fun _ => rfl, fun hne => absurd rfl hne⟩, ?_, performSearch_invariant st term, ?_, ?_,
    ⟨fun _ => rfl, fun hne => absurd rfl hne⟩⟩
  · simp only [handleSearch]
    split
    · exact ⟨fun _ => rfl, fun hne => absurd rfl hne⟩
    · split
      · exact hst
      · exact performSearch_invariant st _
  · by_cases h0 : st.searchMatches.length = 0
    · unfold goToNextMatch
      rw [if_pos h0]
      exact hst
    · have hne : st.searchMatches ≠ [] := fun h => h0 (by rw [h]; rfl)
      obtain ⟨hlo, hhi⟩ := hst.2 hne
      have hNpos : 0 < (st.searchMatches.length : Int) := by
        exact_mod_cast Nat.pos_of_ne_zero h0
      have hmat : (goToNextMatch st).searchMatches = st.searchMatches :=
        goToNextMatch_matches st
      have hidx := goToNextMatch_index st h0
      have htm : (st.currentSearchIndex + 1).tmod (st.searchMatches.length : Int)
          = (st.currentSearchIndex + 1) % (st.searchMatches.length : Int) :=
        Int.tmod_eq_emod (by omega) (by omega)
      refine ⟨fun h => absurd (hmat ▸ h) hne, fun _ => ?_⟩
      rw [hidx, htm, hmat]
      exact ⟨Int.emod_nonneg _ (by omega), Int.emod_lt_of_pos _ hNpos⟩
  · by_cases h0 : st.searchMatches.length = 0
    · unfold goToPreviousMatch
      rw [if_pos h0]
      exact hst
    · have hne : st.searchMatches ≠ [] := fun h => h0 (by rw [h]; rfl)
      obtain ⟨hlo, hhi⟩ := hst.2 hne
      have hmat : (goToPreviousMatch st).searchMatches = st.searchMatches := by
        unfold goToPreviousMatch
        rw [if_neg h0, highlight_searchMatches]
      have hidx : (goToPreviousMatch st).currentSearchIndex
          = (if st.currentSearchIndex ≤ 0 then (st.searchMatches.length : Int) - 1
             else st.currentSearchIndex - 1) := by
        unfold goToPreviousMatch
        rw [if_neg h0, highlight_currentSearchIndex]
      have hNpos : 0 < (st.searchMatches.length : Int) := by
        exact_mod_cast Nat.pos_of_ne_zero h0
      refine ⟨fun h => absurd (hmat ▸ h) hne, fun _ => ?_⟩
      rw [hidx, hmat]
      by_cases hz : st.currentSearchIndex ≤ 0
      · rw [if_pos hz]
        omega
      · rw [if_neg hz]
        omega

/-- Witness for C9 at a concrete valid state and concrete terms. -/
theorem search_index_invariant_witness :
    searchInvariant (initState [] true) ∧
      (searchInvariant (initState [[]] true) ∧
        searchInvariant (handleSearch (initState [[]] true) (("x").toList)) ∧
        searchInvariant (performSearch (initState [[]] true) (("ab").toList)) ∧
        searchInvariant (goToNextMatch (initState [[]] true)) ∧
        searchInvariant (goToPreviousMatch (initState [[]] true)) ∧
        searchInvariant (clearSearch (initState [[]] true))) :=
  ⟨⟨fun _ => rfl, fun hne => absurd rfl hne⟩,
   search_index_invariant [] true (initState [[]] true) (("ab").toList) (("x").toList)
     ⟨fun _ => rfl, fun hne => absurd rfl hne⟩⟩

theorem createTextLayer_length_eq (v : Mat) (items : List TextItem) :
    (createTextLayer v items).length = (items.filter goodItem).length := by
  induction items with
  | nil => rfl
  | cons it rest ih =>
    simp only [createTextLayer] at ih ⊢
    by_cases hk : itemKept it
    · cases htr : it.transform with
      | none =>
        have hfa : (if itemKept it = true then mkSpan v it else none) = none := by
          simp [hk, mkSpan, htr]
        have hg : goodItem it = false := by simp [goodItem, htr]
        simp only [List.filterMap_cons, hfa, List.filter_cons, hg]
        simpa using ih
      | some m =>
        have hfa : (if itemKept it = true then mkSpan v it else none)
            = some (buildSpan v it m) := by
          simp [hk, mkSpan, htr]
        have hg : goodItem it = true := by simp [goodItem, hk, htr]
        simp only [List.filterMap_cons, hfa, List.filter_cons, hg]
        simpa using ih
    · have hfa : (if itemKept it = true then mkSpan v it else none) = none := by
        simp [hk]
      have hg : goodItem it = false := by simp [goodItem, hk]
      simp only [List.filterMap_cons, hfa, List.filter_cons, hg]
      simpa using ih

/-- C8: the overlay builder creates exactly one span per kept TextItem
(non-empty text and well-formed transform), and an item with a
missing/malformed transform only causes that single item to be skipped:
the layers built from the surrounding items are unchanged and the page
build always completes (the builder is a total function of the item
list). -/
theorem overlay_one_span_per_item_and_skip (v : Mat) (items pre post : List TextItem)
    (bad : TextItem) (hbad : bad.transform = none) :
    (createTextLayer v items).length = (items.filter goodItem).length ∧
      createTextLayer v (pre ++ bad :: post)
        = createTextLayer v pre ++ createTextLayer v post := by
  refine ⟨createTextLayer_length_eq v items, ?_⟩
  have hnone : (if itemKept bad then mkSpan v bad else none) = none := by
    by_cases h : itemKept bad <;> simp [h, mkSpan, hbad]
  simp only [createTextLayer, List.filterMap_append, List.filterMap_cons, hnone]

/-- Witness for C8: a concrete three-item list whose middle item has a
missing transform. -/
theorem overlay_one_span_per_item_and_skip_witness :
    (⟨("World").toList, none, [], ("ltr").toList, 0, 0⟩ : TextItem).transform = none ∧
      ((createTextLayer ⟨1, 0, 0, 1, 0, 0⟩
          [⟨("Hello").toList, some ⟨12, 0, 0, 12, 50, 100⟩, [], ("ltr").toList, 0, 0⟩,
            ⟨("World").toList, none, [], ("ltr").toList, 0, 0⟩,
            ⟨("again").toList, some ⟨12, 0, 0, 12, 50, 130⟩, [], ("ltr").toList, 0, 0⟩]).length
          = ([⟨("Hello").toList, some ⟨12, 0, 0, 12, 50, 100⟩, [], ("ltr").toList, 0, 0⟩,
              ⟨("World").toList, none, [], ("ltr").toList, 0, 0⟩,
              ⟨("again").toList, some ⟨12, 0, 0, 12, 50, 130⟩, [], ("ltr").toList, 0,
                0⟩].filter goodItem).length ∧
        createTextLayer ⟨1, 0, 0, 1, 0, 0⟩
            ([⟨("Hello").toList, some ⟨12, 0, 0, 12, 50, 100⟩, [], ("ltr").toList, 0, 0⟩] ++
              ⟨("World").toList, none, [], ("ltr").toList, 0, 0⟩ ::
                [⟨("again").toList, some ⟨12, 0, 0, 12, 50, 130⟩, [], ("ltr").toList, 0, 0⟩])
          = createTextLayer ⟨1, 0, 0, 1, 0, 0⟩
              [⟨("Hello").toList, some ⟨12, 0, 0, 12, 50, 100⟩, [], ("ltr").toList, 0, 0⟩] ++
            createTextLayer ⟨1, 0, 0, 1, 0, 0⟩
              [⟨("again").toList, some ⟨12, 0, 0, 12, 50, 130⟩, [], ("ltr").toList, 0, 0⟩]) :=
  ⟨rfl,
   overlay_one_span_per_item_and_skip ⟨1, 0, 0, 1, 0, 0⟩
     [⟨("Hello").toList, some ⟨12, 0, 0, 12, 50, 100⟩, [], ("ltr").toList, 0, 0⟩,
       ⟨("World").toList, none, [], ("ltr").toList, 0, 0⟩,
       ⟨("again").toList, some ⟨12, 0, 0, 12, 50, 130⟩, [], ("ltr").toList, 0, 0⟩]
     [⟨("Hello").toList, some ⟨12, 0, 0, 12, 50, 100⟩, [], ("ltr").toList, 0, 0⟩]
     [⟨("again").toList, some ⟨12, 0, 0, 12, 50, 130⟩, [], ("ltr").toList, 0, 0⟩]
     ⟨("World").toList, none, [], ("ltr").toList, 0, 0⟩ rfl⟩

/-- C1 (amended): every span the overlay builder creates gets font size
`sqrt(c² + d²)` of the composed transform (viewport ∘ item) — the
components at array indices 2 and 3 of `[a, b, c, d, e, f]`, the norm of
the image of the unit vertical vector — not `sqrt(b² + d²)`; and the
value is always ≥ 0. -/
theorem fontSize_norm_amended (v : Mat) (items : List TextItem) (s : Span)
    (hs : s ∈ createTextLayer v items) :
    0 ≤ fontSizePx s ∧
      ∃ it ∈ items, ∃ m, it.transform = some m ∧ s.transform = composeTransform v m ∧
        fontSizePx s
          = Real.sqrt (((composeTransform v m).c : ℝ) * ((composeTransform v m).c : ℝ)
              + ((composeTransform v m).d : ℝ) * ((composeTransform v m).d : ℝ)) := by
  refine ⟨Real.sqrt_nonneg _, ?_⟩
  simp only [createTextLayer, List.mem_filterMap] at hs
  obtain ⟨it, hit, hsome⟩ := hs
  by_cases hk : itemKept it
  · rw [if_pos hk] at hsome
    cases htr : it.transform with
    | none => simp [mkSpan, htr] at hsome
    | some m =>
      have hsb : s = buildSpan v it m := by
        simp [mkSpan, htr] at hsome
        exact hsome.symm
      refine ⟨it, hit, m, htr, by rw [hsb]; rfl, ?_⟩
      rw [hsb]
      simp [fontSizePx, buildSpan]
  · rw [if_neg hk] at hsome
    exact absurd hsome (by simp)

/-- Witness for C1 (amended) at scale-1 viewport and the item transform
`[12, 0, 0, 12, 50, 100]` of the specification's scenario. -/
theorem fontSize_norm_amended_witness :
    (buildSpan identityViewport helloItem ⟨12, 0, 0, 12, 50, 100⟩
        ∈ createTextLayer identityViewport [helloItem]) ∧
      (0 ≤ fontSizePx (buildSpan identityViewport helloItem ⟨12, 0, 0, 12, 50, 100⟩) ∧
        ∃ it ∈ [helloItem], ∃ m, it.transform = some m ∧
          (buildSpan identityViewport helloItem ⟨12, 0, 0, 12, 50, 100⟩).transform
            = composeTransform identityViewport m ∧
          fontSizePx (buildSpan identityViewport helloItem ⟨12, 0, 0, 12, 50, 100⟩)
            = Real.sqrt (((composeTransform identityViewport m).c : ℝ)
                  * ((composeTransform identityViewport m).c : ℝ)
                + ((composeTransform identityViewport m).d : ℝ)
                  * ((composeTransform identityViewport m).d : ℝ))) :=
  ⟨List.Mem.head _,
   fontSize_norm_amended identityViewport [helloItem]
     (buildSpan identityViewport helloItem ⟨12, 0, 0, 12, 50, 100⟩) (List.Mem.head _)⟩

/-- C1 counterexample: at identity viewport and item transform
`[1, 2, 3, 4, 0, 0]` (a transform with shear, so that array components
1 and 2 differ), the font size the builder computes is sqrt(3² + 4²) = 5,
not sqrt(b² + d²) = sqrt(2² + 4²) = sqrt 20: the claimed formula is
false for this well-formed transform. -/
theorem fontSize_b_d_formula_counterexample :
    ((createTextLayer identityViewport [shearItem]).map fontSizePx)
      ≠ ((createTextLayer identityViewport [shearItem]).map
          (fun s => Real.sqrt ((s.transform.b : ℝ) * (s.transform.b : ℝ)
            + (s.transform.d : ℝ) * (s.transform.d : ℝ)))) := by
  have hlayer : createTextLayer identityViewport [shearItem]
      = [buildSpan identityViewport shearItem ⟨1, 2, 3, 4, 0, 0⟩] := rfl
  have htr : (buildSpan identityViewport shearItem ⟨1, 2, 3, 4, 0, 0⟩).transform
      = composeTransform identityViewport ⟨1, 2, 3, 4, 0, 0⟩ := rfl
  have hmat : composeTransform identityViewport ⟨1, 2, 3, 4, 0, 0⟩ = ⟨1, 2, 3, 4, 0, 0⟩ := by
    simp only [composeTransform, identityViewport, Mat.mk.injEq]
    norm_num
  rw [hlayer]
  simp only [List.map_cons, List.map_nil, fontSizePx, ne_eq, List.cons.injEq, and_true]
  rw [htr, hmat]
  have hA : (((⟨1, 2, 3, 4, 0, 0⟩ : Mat).c : ℝ) * ((⟨1, 2, 3, 4, 0, 0⟩ : Mat).c : ℝ)
      + ((⟨1, 2, 3, 4, 0, 0⟩ : Mat).d : ℝ) * ((⟨1, 2, 3, 4, 0, 0⟩ : Mat).d : ℝ)) = 25 := by
    norm_num
  have hB : (((⟨1, 2, 3, 4, 0, 0⟩ : Mat).b : ℝ) * ((⟨1, 2, 3, 4, 0, 0⟩ : Mat).b : ℝ)
      + ((⟨1, 2, 3, 4, 0, 0⟩ : Mat).d : ℝ) * ((⟨1, 2, 3, 4, 0, 0⟩ : Mat).d : ℝ)) = 20 := by
    norm_num
  rw [hA, hB]
  intro h
  have hlt : Real.sqrt 20 < Real.sqrt 25 :=
    Real.sqrt_lt_sqrt (by norm_num) (by norm_num)
  rw [h] at hlt
  exact lt_irrefl _ hlt

theorem searchNode_matches (term : List Char) (pageIdx spanIdx : Nat) (ms : List SMatch)
    (idc : Nat) (n : Node) :
    (searchNode (jsToLower term) term.length pageIdx spanIdx ms idc n).2.1
      = ms ++ (match nodeFirstMatch term n with
          | some t => [⟨⟨idc, HClass.highlight, ms.length, t⟩, pageIdx + 1, spanIdx, t⟩]
          | none => []) := by
  cases h : firstIndexOf (jsToLower (nodeText n)) (jsToLower term) with
  | none => simp [searchNode, nodeFirstMatch, h]
  | some i => simp [searchNode, nodeFirstMatch, h]

theorem searchNodes_proj (term : List Char) (pageIdx : Nat) (ns : List Node) :
    ∀ (si : Nat) (ms : List SMatch) (idc : Nat),
      ((searchNodes (jsToLower term) term.length pageIdx si ms idc ns).2.1).map matchProj
        = ms.map matchProj ++ specPage term pageIdx si ns := by
  induction ns with
  | nil => intro si ms idc; simp [searchNodes, specPage]
  | cons n rest ih =>
    intro si ms idc
    simp only [searchNodes]
    rw [ih]
    rw [searchNode_matches]
    cases h : nodeFirstMatch term n with
    | none => simp [specPage, h]
    | some t => simp [specPage, h, matchProj]

theorem searchPages_proj (term : List Char) (d : Doc) :
    ∀ (pageIdx : Nat) (ms : List SMatch) (idc : Nat),
      ((searchPages (jsToLower term) term.length pageIdx ms idc d).2.1).map matchProj
        = ms.map matchProj ++ specDoc term pageIdx d := by
  induction d with
  | nil => intro pageIdx ms idc; simp [searchPages, specDoc]
  | cons pg rest ih =>
    intro pageIdx ms idc
    simp only [searchPages]
    rw [ih, searchNodes_proj]
    simp [specDoc]

theorem attrList_append_singleton (ms : List SMatch) (m : SMatch)
    (hm : m.element.matchAttr = ms.length) (h : attrList ms = List.range ms.length) :
    attrList (ms ++ [m]) = List.range (ms ++ [m]).length := by
  simp only [attrList, List.map_append, List.map_cons, List.map_nil, List.length_append,
    List.length_cons, List.length_nil]
  rw [show ms.length + (0 + 1) = ms.length + 1 by omega, List.range_succ, hm]
  rw [attrList] at h
  rw [h]

theorem searchNode_attrList (term : List Char) (pageIdx spanIdx : Nat) (ms : List SMatch)
    (idc : Nat) (n : Node) (h : attrList ms = List.range ms.length) :
    attrList (searchNode (jsToLower term) term.length pageIdx spanIdx ms idc n).2.1
      = List.range (searchNode (jsToLower term) term.length pageIdx spanIdx ms idc n).2.1.length := by
  rw [searchNode_matches]
  cases hf : nodeFirstMatch term n with
  | none => simpa using h
  | some t => exact attrList_append_singleton ms _ rfl h

theorem searchNodes_attrList (term : List Char) (pageIdx : Nat) (ns : List Node) :
    ∀ (si : Nat) (ms : List SMatch) (idc : Nat), attrList ms = List.range ms.length →
      attrList (searchNodes (jsToLower term) term.length pageIdx si ms idc ns).2.1
        = List.range (searchNodes (jsToLower term) term.length pageIdx si ms idc ns).2.1.length := by
  induction ns with
  | nil => intro si ms idc h; simpa [searchNodes] using h
  | cons n rest ih =>
    intro si ms idc h
    simp only [searchNodes]
    exact ih (si + 1) _ _ (searchNode_attrList term pageIdx si ms idc n h)

theorem searchPages_attrList (term : List Char) (d : Doc) :
    ∀ (pageIdx : Nat) (ms : List SMatch) (idc : Nat), attrList ms = List.range ms.length →
      attrList (searchPages (jsToLower term) term.length pageIdx ms idc d).2.1
        = List.range (searchPages (jsToLower term) term.length pageIdx ms idc d).2.1.length := by
  induction d with
  | nil => intro pageIdx ms idc h; simpa [searchPages] using h
  | cons pg rest ih =>
    intro pageIdx ms idc h
    simp only [searchPages]
    exact ih (pageIdx + 1) _ _ (searchNodes_attrList term pageIdx pg 0 ms idc h)

theorem nodeFirstMatch_clearNode (term : List Char) (n : Node) :
    nodeFirstMatch term (clearNode n) = nodeFirstMatch term n := by
  simp [nodeFirstMatch, clearNode_text]

theorem specPage_clear (term : List Char) (pageIdx : Nat) (pg : Page) :
    ∀ si : Nat, specPage term pageIdx si (pg.map clearNode) = specPage term pageIdx si pg := by
  induction pg with
  | nil => intro si; rfl
  | cons n rest ih =>
    intro si
    simp only [List.map_cons, specPage, nodeFirstMatch_clearNode, ih]

theorem specDoc_clear (term : List Char) (d : Doc) :
    ∀ pageIdx : Nat, specDoc term pageIdx (clearDoc d) = specDoc term pageIdx d := by
  induction d with
  | nil => intro pageIdx; rfl
  | cons pg rest ih =>
    intro pageIdx
    simp only [clearDoc, List.map_cons, specDoc, specPage_clear]
    rw [show (List.map (fun pg => List.map clearNode pg) rest) = clearDoc rest from rfl, ih]

theorem performSearch_matches_eq (st : SearchState) (term : List Char)
    (hload : st.pdfDocLoaded = true) (hterm : term ≠ []) :
    (performSearch st term).searchMatches
      = (searchPages (jsToLower term) term.length 0 [] st.nextId (clearDoc st.doc)).2.1 := by
  simp only [performSearch]
  rw [if_neg (by simp [hload, hterm])]
  split
  · rw [highlight_searchMatches]
  · rfl

/-- C2: for a loaded document and a term of length ≥ 2, `performSearch`
records, in page order then node order, exactly one match per overlay
node whose text contains the term case-insensitively — the first
occurrence only, with the correct 1-based page number, node index and
matched substring (the spec-side description `specDoc`); the
`data-search-match` indices are assigned 0, 1, 2, ... in discovery
order; and when the match list is non-empty the current index is set
to 0. -/
theorem performSearch_spec (st : SearchState) (term : List Char)
    (hload : st.pdfDocLoaded = true) (hlen : 2 ≤ term.length) :
    ((performSearch st term).searchMatches).map matchProj = specDoc term 0 st.doc ∧
      attrList (performSearch st term).searchMatches
        = List.range (performSearch st term).searchMatches.length ∧
      ((performSearch st term).searchMatches ≠ [] →
        (performSearch st term).currentSearchIndex = 0) := by
  have hterm : term ≠ [] := by
    intro h
    rw [h] at hlen
    simp at hlen
  have hme := performSearch_matches_eq st term hload hterm
  refine ⟨?_, ?_, ?_⟩
  · rw [hme, searchPages_proj]
    simp [specDoc_clear]
  · rw [hme]
    exact searchPages_attrList term (clearDoc st.doc) 0 [] st.nextId rfl
  · intro hne
    rcases performSearch_matches_idx st term with ⟨h1, -⟩ | ⟨-, h2⟩
    · exact absurd h1 hne
    · exact h2

/-- Witness for C2: the specification's scenario — a two-page document,
page 1 without the term, page 2 with two nodes each containing cat —
yields exactly the two spec-side records on page 2 and current index 0. -/
theorem performSearch_spec_witness :
    ((initState [[[Part.txt (("dog").toList)]],
          [[Part.txt (("the cat").toList)], [Part.txt (("a cat too").toList)]]]
        true).pdfDocLoaded = true ∧ 2 ≤ (("cat").toList).length) ∧
      (((performSearch
            (initState [[[Part.txt (("dog").toList)]],
              [[Part.txt (("the cat").toList)], [Part.txt (("a cat too").toList)]]] true)
            (("cat").toList)).searchMatches).map matchProj
          = specDoc (("cat").toList) 0
              [[[Part.txt (("dog").toList)]],
                [[Part.txt (("the cat").toList)], [Part.txt (("a cat too").toList)]]] ∧
        attrList (performSearch
            (initState [[[Part.txt (("dog").toList)]],
              [[Part.txt (("the cat").toList)], [Part.txt (("a cat too").toList)]]] true)
            (("cat").toList)).searchMatches
          = List.range (performSearch
              (initState [[[Part.txt (("dog").toList)]],
                [[Part.txt (("the cat").toList)], [Part.txt (("a cat too").toList)]]] true)
              (("cat").toList)).searchMatches.length ∧
        ((performSearch
            (initState [[[Part.txt (("dog").toList)]],
              [[Part.txt (("the cat").toList)], [Part.txt (("a cat too").toList)]]] true)
            (("cat").toList)).searchMatches ≠ [] →
          (performSearch
              (initState [[[Part.txt (("dog").toList)]],
                [[Part.txt (("the cat").toList)], [Part.txt (("a cat too").toList)]]] true)
              (("cat").toList)).currentSearchIndex = 0)) :=
  ⟨⟨rfl, by decide⟩,
   performSearch_spec
     (initState [[[Part.txt (("dog").toList)]],
       [[Part.txt (("the cat").toList)], [Part.txt (("a cat too").toList)]]] true)
     (("cat").toList) rfl (by decide)⟩

theorem nodeText_append (n1 n2 : Node) : nodeText (n1 ++ n2) = nodeText n1 ++ nodeText n2 := by
  simp [nodeText]

theorem take_middle_drop (l : List Char) (i k : Nat) :
    l.take i ++ ((l.drop i).take k ++ l.drop (i + k)) = l := by
  conv_rhs => rw [← List.take_append_drop i l]
  congr 1
  conv_rhs => rw [← List.take_append_drop k (l.drop i)]
  congr 1
  rw [List.drop_drop, Nat.add_comm]

theorem searchNode_text (tl : List Char) (k pageIdx spanIdx : Nat) (ms : List SMatch)
    (idc : Nat) (n : Node) :
    nodeText (searchNode tl k pageIdx spanIdx ms idc n).1 = nodeText n := by
  cases h : firstIndexOf (jsToLower (nodeText n)) tl with
  | none => simp [searchNode, h]
  | some i =>
    simp only [searchNode, h]
    by_cases hb : (nodeText n).take i = [] <;> by_cases ha : (nodeText n).drop (i + k) = [] <;>
      · simp only [hb, ha, if_pos, if_neg, ite_true, ite_false, nodeText_append, nodeText_cons,
          nodeText_nil, Part.textOf_el, List.nil_append, List.append_nil]
        simpa [hb, ha] using take_middle_drop (nodeText n) i k

theorem searchNodes_texts (tl : List Char) (k pageIdx : Nat) (ns : List Node) :
    ∀ (si : Nat) (ms : List SMatch) (idc : Nat),
      (searchNodes tl k pageIdx si ms idc ns).1.map nodeText = ns.map nodeText := by
  induction ns with
  | nil => intro si ms idc; rfl
  | cons n rest ih =>
    intro si ms idc
    simp only [searchNodes, List.map_cons]
    rw [searchNode_text, ih]

theorem searchPages_texts (tl : List Char) (k : Nat) (d : Doc) :
    ∀ (pageIdx : Nat) (ms : List SMatch) (idc : Nat),
      docTexts (searchPages tl k pageIdx ms idc d).1 = docTexts d := by
  induction d with
  | nil => intro pageIdx ms idc; rfl
  | cons pg rest ih =>
    intro pageIdx ms idc
    simp only [searchPages, docTexts, List.map_cons]
    rw [searchNodes_texts]
    have := ih (pageIdx + 1) (searchNodes tl k pageIdx 0 ms idc pg).2.1
      (searchNodes tl k pageIdx 0 ms idc pg).2.2
    simp only [docTexts] at this
    rw [this]

theorem textOf_unmarkPart (p : Part) : (unmarkPart p).textOf = p.textOf := by
  cases p with
  | txt s => rfl
  | el e =>
    simp only [unmarkPart]
    split <;> rfl

theorem nodeText_unmarkNode (n : Node) : nodeText (n.map unmarkPart) = nodeText n := by
  simp [nodeText, List.map_map, Function.comp_def, textOf_unmarkPart]

theorem docTexts_unmarkDoc (d : Doc) : docTexts (unmarkDoc d) = docTexts d := by
  simp [docTexts, unmarkDoc, nodeText_unmarkNode]

theorem markFirstInNode_text (i : Nat) (n : Node) :
    nodeText (markFirstInNode i n).1 = nodeText n := by
  induction n with
  | nil => rfl
  | cons p rest ih =>
    cases p with
    | txt s => simp [markFirstInNode, nodeText_cons, ih]
    | el e =>
      by_cases h : e.matchAttr = i
      · simp [markFirstInNode, h, nodeText_cons]
      · simp [markFirstInNode, h, nodeText_cons, ih]

theorem markFirstInPage_texts (i : Nat) (pg : Page) :
    (markFirstInPage i pg).1.map nodeText = pg.map nodeText := by
  induction pg with
  | nil => rfl
  | cons n rest ih =>
    simp only [markFirstInPage]
    split
    · simp [markFirstInNode_text]
    · simp [markFirstInNode_text, ih]

theorem markFirstInDoc_texts (i : Nat) (d : Doc) :
    docTexts (markFirstInDoc i d).1 = docTexts d := by
  induction d with
  | nil => rfl
  | cons pg rest ih =>
    simp only [markFirstInDoc]
    split
    · simp [docTexts, markFirstInPage_texts]
    · simp only [docTexts, List.map_cons, markFirstInPage_texts]
      simp only [docTexts] at ih
      rw [ih]

theorem highlight_docTexts (st : SearchState) :
    docTexts (highlightCurrentMatch st).doc = docTexts st.doc := by
  simp only [highlightCurrentMatch]
  split
  · show docTexts (markFirstInDoc _ (unmarkDoc st.doc)).1 = _
    rw [markFirstInDoc_texts, docTexts_unmarkDoc]
  · exact docTexts_unmarkDoc st.doc

theorem performSearch_docTexts (st : SearchState) (term : List Char) :
    docTexts (performSearch st term).doc = docTexts st.doc := by
  simp only [performSearch]
  by_cases hguard : st.pdfDocLoaded = false ∨ term = []
  · rw [if_pos hguard]
    exact docTexts_clearDoc st.doc
  · rw [if_neg hguard]
    split
    · rw [highlight_docTexts]
      show docTexts (searchPages _ _ _ _ _ (clearDoc st.doc)).1 = _
      rw [searchPages_texts, docTexts_clearDoc]
    · show docTexts (searchPages _ _ _ _ _ (clearDoc st.doc)).1 = _
      rw [searchPages_texts, docTexts_clearDoc]

theorem clearNode_shape (n : Node) :
    clearNode n = [] ∨ ∃ t, t ≠ [] ∧ clearNode n = [Part.txt t] := by
  rw [clearNode_eq]
  by_cases h : nodeText n = []
  · left
    simp [h]
  · right
    exact ⟨nodeText n, h, by simp [h]⟩

/-- C3: for every overlay document, prior search state and search term,
running `performSearch(term)` and then `clearSearchHighlights()`
restores every overlay node's text content exactly to its pre-search
value; afterwards no highlight marker remains (every node consists of
plain text nodes only) and every node is normalized — either empty or a
single non-empty text node. -/
theorem search_clear_roundtrip (st : SearchState) (term : List Char) :
    docTexts (clearSearchHighlights (performSearch st term)).doc = docTexts st.doc ∧
      docAllPlain (clearSearchHighlights (performSearch st term)).doc = true ∧
      ∀ pg ∈ (clearSearchHighlights (performSearch st term)).doc, ∀ n ∈ pg,
        n = [] ∨ ∃ t, t ≠ [] ∧ n = [Part.txt t] := by
  refine ⟨?_, docAllPlain_clearDoc _, ?_⟩
  · show docTexts (clearDoc (performSearch st term).doc) = _
    rw [docTexts_clearDoc, performSearch_docTexts]
  · intro pg hpg n hn
    simp only [clearSearchHighlights, clearDoc, List.mem_map] at hpg
    obtain ⟨pg0, -, hpg0⟩ := hpg
    rw [← hpg0] at hn
    simp only [List.mem_map] at hn
    obtain ⟨n0, -, hn0⟩ := hn
    rw [← hn0]
    exact clearNode_shape n0

/-- C7: over any sequence of settled selection-change events,
`lastSelectedText` always holds the most recent non-empty settled
selection (or the initial value when none occurred); a single event
whose settled selection is empty leaves `lastSelectedText` unchanged;
and the emptiness indicator — the visibility of the selection-info box
and the character count — reflects only the last (current) event. -/
theorem selection_last_text_retained (st : SelectionState) (events : List (List Char))
    (e : List Char) :
    (runSelectionEvents st events).lastSelectedText
        = lastNonEmptySelection st.lastSelectedText events ∧
      (handleSelectionChange st e).lastSelectedText
        = (if jsTrim e = [] then st.lastSelectedText else some (jsTrim e)) ∧
      (runSelectionEvents st (events ++ [e])).selectionInfoVisible
        = !(jsTrim e).isEmpty ∧
      (runSelectionEvents st (events ++ [e])).selectionCount = (jsTrim e).length := by
  refine ⟨runSel_last events st, handleSelectionChange_last st e, ?_, ?_⟩ <;>
  · simp only [runSelectionEvents, List.foldl_append, List.foldl_cons, List.foldl_nil]
    by_cases h : jsTrim e = []
    · simp [handleSelectionChange, h]
    · have : 0 < (jsTrim e).length := List.length_pos.mpr h
      simp [handleSelectionChange, h, this, List.isEmpty_iff]

/-- Witness for C3: the specification's scenario — term orl against a
node with text World — restores the node to a single plain text node
World. -/
theorem search_clear_roundtrip_witness :
    docTexts (clearSearchHighlights (performSearch
          (initState [[[Part.txt (("World").toList)]]] true) (("orl").toList))).doc
        = docTexts (initState [[[Part.txt (("World").toList)]]] true).doc ∧
      docAllPlain (clearSearchHighlights (performSearch
          (initState [[[Part.txt (("World").toList)]]] true) (("orl").toList))).doc = true ∧
      ∀ pg ∈ (clearSearchHighlights (performSearch
          (initState [[[Part.txt (("World").toList)]]] true) (("orl").toList))).doc,
        ∀ n ∈ pg, n = [] ∨ ∃ t, t ≠ [] ∧ n = [Part.txt t] :=
  search_clear_roundtrip (initState [[[Part.txt (("World").toList)]]] true) (("orl").toList)

/-- Witness for C7 at a concrete event sequence: a selection of Hello
followed by a cleared selection. -/
theorem selection_last_text_retained_witness :
    (runSelectionEvents ⟨none, 0, false, false⟩ [("Hello").toList]).lastSelectedText
        = lastNonEmptySelection (none : Option (List Char)) [("Hello").toList] ∧
      (handleSelectionChange ⟨none, 0, false, false⟩ (("").toList)).lastSelectedText
        = (if jsTrim (("").toList) = [] then (none : Option (List Char))
           else some (jsTrim (("").toList))) ∧
      (runSelectionEvents ⟨none, 0, false, false⟩
          ([("Hello").toList] ++ [("").toList])).selectionInfoVisible
        = !(jsTrim (("").toList)).isEmpty ∧
      (runSelectionEvents ⟨none, 0, false, false⟩
          ([("Hello").toList] ++ [("").toList])).selectionCount
        = (jsTrim (("").toList)).length :=
  selection_last_text_retained ⟨none, 0, false, false⟩ [("Hello").toList] (("").toList)

theorem nodeEls_nil : nodeEls [] = [] := rfl

theorem nodeEls_cons_txt (s : List Char) (n : Node) : nodeEls (Part.txt s :: n) = nodeEls n := rfl

theorem nodeEls_cons_el (e : Elem) (n : Node) :
    nodeEls (Part.el e :: n) = e :: nodeEls n := rfl

theorem nodeEls_append (n1 n2 : Node) : nodeEls (n1 ++ n2) = nodeEls n1 ++ nodeEls n2 := by
  simp [nodeEls]

theorem searchNode_step (tl : List Char) (k pageIdx spanIdx : Nat) (ms : List SMatch)
    (idc : Nat) (n : Node) :
    (searchNode tl k pageIdx spanIdx ms idc n).2.1
      = ms ++ (match firstIndexOf (jsToLower (nodeText n)) tl with
          | some i => [⟨⟨idc, HClass.highlight, ms.length, ((nodeText n).drop i).take k⟩,
              pageIdx + 1, spanIdx, ((nodeText n).drop i).take k⟩]
          | none => []) := by
  cases hf : firstIndexOf (jsToLower (nodeText n)) tl with
  | none => simp [searchNode, hf]
  | some i => simp [searchNode, hf]

theorem searchNodes_prefix (tl : List Char) (k pageIdx : Nat) (ns : List Node) :
    ∀ (si : Nat) (ms : List SMatch) (idc : Nat),
      ∃ new, (searchNodes tl k pageIdx si ms idc ns).2.1 = ms ++ new := by
  induction ns with
  | nil => intro si ms idc; exact ⟨[], by simp [searchNodes]⟩
  | cons n rest ih =>
    intro si ms idc
    simp only [searchNodes]
    obtain ⟨new2, h2⟩ := ih (si + 1) (searchNode tl k pageIdx si ms idc n).2.1
      (searchNode tl k pageIdx si ms idc n).2.2
    rw [h2, searchNode_step]
    exact ⟨_, List.append_assoc _ _ _⟩

theorem searchPages_prefix (tl : List Char) (k : Nat) (d : Doc) :
    ∀ (pageIdx : Nat) (ms : List SMatch) (idc : Nat),
      ∃ new, (searchPages tl k pageIdx ms idc d).2.1 = ms ++ new := by
  induction d with
  | nil => intro pageIdx ms idc; exact ⟨[], by simp [searchPages]⟩
  | cons pg rest ih =>
    intro pageIdx ms idc
    simp only [searchPages]
    obtain ⟨new2, h2⟩ := ih (pageIdx + 1) (searchNodes tl k pageIdx 0 ms idc pg).2.1
      (searchNodes tl k pageIdx 0 ms idc pg).2.2
    obtain ⟨new1, h1⟩ := searchNodes_prefix tl k pageIdx pg 0 ms idc
    rw [h2, h1]
    exact ⟨_, List.append_assoc _ _ _⟩

theorem searchNode_els (tl : List Char) (k pageIdx spanIdx : Nat) (ms : List SMatch)
    (idc : Nat) (n : Node) (h : nodeEls n = []) :
    nodeEls (searchNode tl k pageIdx spanIdx ms idc n).1
      = ((searchNode tl k pageIdx spanIdx ms idc n).2.1.drop ms.length).map bumpElem := by
  cases hf : firstIndexOf (jsToLower (nodeText n)) tl with
  | none => simp [searchNode, hf, h, List.drop_length]
  | some i =>
    simp only [searchNode, hf]
    by_cases hb : (nodeText n).take i = [] <;> by_cases ha : (nodeText n).drop (i + k) = [] <;>
      simp [hb, ha, nodeEls_append, nodeEls_cons_el, nodeEls_cons_txt, nodeEls_nil,
        bumpElem, List.drop_left]

theorem searchNodes_els (tl : List Char) (k pageIdx : Nat) (ns : List Node) :
    ∀ (si : Nat) (ms : List SMatch) (idc : Nat), (∀ n ∈ ns, nodeEls n = []) →
      pageEls (searchNodes tl k pageIdx si ms idc ns).1
        = ((searchNodes tl k pageIdx si ms idc ns).2.1.drop ms.length).map bumpElem := by
  induction ns with
  | nil =>
    intro si ms idc hplain
    simp [searchNodes, pageEls, List.drop_length]
  | cons n rest ih =>
    intro si ms idc hplain
    simp only [searchNodes, pageEls, List.map_cons, List.flatten_cons]
    have hels := searchNode_els tl k pageIdx si ms idc n (hplain n (by simp))
    have hih := ih (si + 1) (searchNode tl k pageIdx si ms idc n).2.1
      (searchNode tl k pageIdx si ms idc n).2.2 (fun m hm => hplain m (by simp [hm]))
    simp only [pageEls] at hih
    rw [hels, hih]
    obtain ⟨new2, h2⟩ := searchNodes_prefix tl k pageIdx rest (si + 1)
      (searchNode tl k pageIdx si ms idc n).2.1 (searchNode tl k pageIdx si ms idc n).2.2
    rw [h2, List.drop_left]
    rw [searchNode_step, List.append_assoc, List.drop_left, List.drop_left, List.map_append]

theorem searchPages_els (tl : List Char) (k : Nat) (d : Doc) :
    ∀ (pageIdx : Nat) (ms : List SMatch) (idc : Nat),
      (∀ pg ∈ d, ∀ n ∈ pg, nodeEls n = []) →
      docEls (searchPages tl k pageIdx ms idc d).1
        = ((searchPages tl k pageIdx ms idc d).2.1.drop ms.length).map bumpElem := by
  induction d with
  | nil =>
    intro pageIdx ms idc hplain
    simp [searchPages, docEls, List.drop_length]
  | cons pg rest ih =>
    intro pageIdx ms idc hplain
    simp only [searchPages, docEls, List.map_cons, List.flatten_cons]
    have hels := searchNodes_els tl k pageIdx pg 0 ms idc (hplain pg (by simp))
    have hih := ih (pageIdx + 1) (searchNodes tl k pageIdx 0 ms idc pg).2.1
      (searchNodes tl k pageIdx 0 ms idc pg).2.2
      (fun q hq => hplain q (by simp [hq]))
    simp only [docEls] at hih
    rw [hels, hih]
    obtain ⟨new2, h2⟩ := searchPages_prefix tl k rest (pageIdx + 1)
      (searchNodes tl k pageIdx 0 ms idc pg).2.1 (searchNodes tl k pageIdx 0 ms idc pg).2.2
    rw [h2, List.drop_left]
    obtain ⟨new1, h1⟩ := searchNodes_prefix tl k pageIdx pg 0 ms idc
    rw [h1, List.append_assoc, List.drop_left, List.drop_left, List.map_append]

theorem searchNode_meta (tl : List Char) (k pageIdx spanIdx : Nat) (ms : List SMatch)
    (idc : Nat) (n : Node) :
    (searchNode tl k pageIdx spanIdx ms idc n).2.2 % 2 = idc % 2 ∧
      ∀ m ∈ (searchNode tl k pageIdx spanIdx ms idc n).2.1.drop ms.length,
        m.element.eid % 2 = idc % 2 ∧ m.element.cls = HClass.highlight := by
  cases hf : firstIndexOf (jsToLower (nodeText n)) tl with
  | none =>
    refine ⟨by simp [searchNode, hf], ?_⟩
    simp [searchNode, hf, List.drop_length]
  | some i =>
    refine ⟨by simp [searchNode, hf, Nat.add_mod_right], ?_⟩
    simp [searchNode, hf, List.drop_left]

theorem searchNode_ms_le (tl : List Char) (k pageIdx spanIdx : Nat) (ms : List SMatch)
    (idc : Nat) (n : Node) :
    ms.length ≤ (searchNode tl k pageIdx spanIdx ms idc n).2.1.length := by
  rw [searchNode_step]
  simp

theorem searchNodes_meta (tl : List Char) (k pageIdx : Nat) (ns : List Node) :
    ∀ (si : Nat) (ms : List SMatch) (idc : Nat),
      (searchNodes tl k pageIdx si ms idc ns).2.2 % 2 = idc % 2 ∧
        ∀ m ∈ (searchNodes tl k pageIdx si ms idc ns).2.1.drop ms.length,
          m.element.eid % 2 = idc % 2 ∧ m.element.cls = HClass.highlight := by
  induction ns with
  | nil =>
    intro si ms idc
    refine ⟨rfl, ?_⟩
    simp [searchNodes, List.drop_length]
  | cons n rest ih =>
    intro si ms idc
    obtain ⟨hp1, hm1⟩ := searchNode_meta tl k pageIdx si ms idc n
    obtain ⟨hp2, hm2⟩ := ih (si + 1) (searchNode tl k pageIdx si ms idc n).2.1
      (searchNode tl k pageIdx si ms idc n).2.2
    refine ⟨?_, ?_⟩
    · simp only [searchNodes]
      rw [hp2, hp1]
    · simp only [searchNodes]
      intro m hm
      obtain ⟨new2, h2⟩ := searchNodes_prefix tl k pageIdx rest (si + 1)
        (searchNode tl k pageIdx si ms idc n).2.1 (searchNode tl k pageIdx si ms idc n).2.2
      rw [h2, List.drop_append_of_le_length (searchNode_ms_le tl k pageIdx si ms idc n)] at hm
      rcases List.mem_append.mp hm with hin | hin
      · exact hm1 m hin
      · have hmem : m ∈ (searchNodes tl k pageIdx (si + 1)
            (searchNode tl k pageIdx si ms idc n).2.1
            (searchNode tl k pageIdx si ms idc n).2.2 rest).2.1.drop
              (searchNode tl k pageIdx si ms idc n).2.1.length := by
          rw [h2, List.drop_left]
          exact hin
        obtain ⟨hpar, hcls⟩ := hm2 m hmem
        exact ⟨by rw [hpar, hp1], hcls⟩

theorem searchNodes_ms_le (tl : List Char) (k pageIdx : Nat) (ns : List Node)
    (si : Nat) (ms : List SMatch) (idc : Nat) :
    ms.length ≤ (searchNodes tl k pageIdx si ms idc ns).2.1.length := by
  obtain ⟨new, h⟩ := searchNodes_prefix tl k pageIdx ns si ms idc
  rw [h]
  simp

theorem searchPages_meta (tl : List Char) (k : Nat) (d : Doc) :
    ∀ (pageIdx : Nat) (ms : List SMatch) (idc : Nat),
      (searchPages tl k pageIdx ms idc d).2.2 % 2 = idc % 2 ∧
        ∀ m ∈ (searchPages tl k pageIdx ms idc d).2.1.drop ms.length,
          m.element.eid % 2 = idc % 2 ∧ m.element.cls = HClass.highlight := by
  induction d with
  | nil =>
    intro pageIdx ms idc
    refine ⟨rfl, ?_⟩
    simp [searchPages, List.drop_length]
  | cons pg rest ih =>
    intro pageIdx ms idc
    obtain ⟨hp1, hm1⟩ := searchNodes_meta tl k pageIdx pg 0 ms idc
    obtain ⟨hp2, hm2⟩ := ih (pageIdx + 1) (searchNodes tl k pageIdx 0 ms idc pg).2.1
      (searchNodes tl k pageIdx 0 ms idc pg).2.2
    refine ⟨?_, ?_⟩
    · simp only [searchPages]
      rw [hp2, hp1]
    · simp only [searchPages]
      intro m hm
      obtain ⟨new2, h2⟩ := searchPages_prefix tl k rest (pageIdx + 1)
        (searchNodes tl k pageIdx 0 ms idc pg).2.1 (searchNodes tl k pageIdx 0 ms idc pg).2.2
      rw [h2, List.drop_append_of_le_length (searchNodes_ms_le tl k pageIdx pg 0 ms idc)] at hm
      rcases List.mem_append.mp hm with hin | hin
      · exact hm1 m hin
      · have hmem : m ∈ (searchPages tl k (pageIdx + 1)
            (searchNodes tl k pageIdx 0 ms idc pg).2.1
            (searchNodes tl k pageIdx 0 ms idc pg).2.2 rest).2.1.drop
              (searchNodes tl k pageIdx 0 ms idc pg).2.1.length := by
          rw [h2, List.drop_left]
          exact hin
        obtain ⟨hpar, hcls⟩ := hm2 m hmem
        exact ⟨by rw [hpar, hp1], hcls⟩

theorem pageEls_nil : pageEls [] = [] := rfl

theorem pageEls_cons (n : Node) (pg : Page) : pageEls (n :: pg) = nodeEls n ++ pageEls pg := by
  simp [pageEls]

theorem docEls_nil : docEls [] = [] := rfl

theorem docEls_cons (pg : Page) (d : Doc) : docEls (pg :: d) = pageEls pg ++ docEls d := by
  simp [docEls]

theorem nodeEls_unmarkNode (n : Node) :
    nodeEls (n.map unmarkPart) = (nodeEls n).map unmarkElem := by
  induction n with
  | nil => rfl
  | cons p rest ih =>
    cases p with
    | txt s =>
      show nodeEls (Part.txt s :: rest.map unmarkPart) = _
      rw [nodeEls_cons_txt, nodeEls_cons_txt, ih]
    | el e =>
      show nodeEls (Part.el (if e.cls = HClass.current then { e with cls := HClass.highlight }
          else e) :: rest.map unmarkPart) = _
      rw [nodeEls_cons_el, nodeEls_cons_el, List.map_cons, ih]
      rfl

theorem pageEls_unmarkPage (pg : Page) :
    pageEls (pg.map (fun n => n.map unmarkPart)) = (pageEls pg).map unmarkElem := by
  induction pg with
  | nil => rfl
  | cons n rest ih =>
    rw [List.map_cons, pageEls_cons, pageEls_cons, List.map_append, nodeEls_unmarkNode, ih]

theorem docEls_unmarkDoc (d : Doc) : docEls (unmarkDoc d) = (docEls d).map unmarkElem := by
  induction d with
  | nil => rfl
  | cons pg rest ih =>
    show docEls (pg.map (fun n => n.map unmarkPart) :: unmarkDoc rest) = _
    rw [docEls_cons, docEls_cons, List.map_append, pageEls_unmarkPage, ih]

theorem markFirstInNode_els (i : Nat) (n : Node) :
    nodeEls (markFirstInNode i n).1 = markFirstEls i (nodeEls n) ∧
      (markFirstInNode i n).2 = (nodeEls n).any (fun e => e.matchAttr = i) := by
  induction n with
  | nil => exact ⟨rfl, rfl⟩
  | cons p rest ih =>
    cases p with
    | txt s =>
      show (nodeEls (Part.txt s :: (markFirstInNode i rest).1)
          = markFirstEls i (nodeEls (Part.txt s :: rest))) ∧ _
      rw [nodeEls_cons_txt, nodeEls_cons_txt]
      exact ih
    | el e =>
      by_cases h : e.matchAttr = i
      · have hstep : markFirstInNode i (Part.el e :: rest)
            = (Part.el { e with cls := HClass.current } :: rest, true) := by
          simp [markFirstInNode, h]
        rw [hstep]
        constructor
        · show Elem.mk e.eid HClass.current e.matchAttr e.text :: nodeEls rest
              = markFirstEls i (nodeEls (Part.el e :: rest))
          rw [nodeEls_cons_el]
          simp [markFirstEls, h]
        · show true = (nodeEls (Part.el e :: rest)).any (fun e => e.matchAttr = i)
          rw [nodeEls_cons_el]
          simp [h]
      · have hstep : markFirstInNode i (Part.el e :: rest)
            = (Part.el e :: (markFirstInNode i rest).1, (markFirstInNode i rest).2) := by
          simp [markFirstInNode, h]
        rw [hstep]
        constructor
        · show nodeEls (Part.el e :: (markFirstInNode i rest).1)
              = markFirstEls i (nodeEls (Part.el e :: rest))
          rw [nodeEls_cons_el, nodeEls_cons_el, ih.1]
          simp [markFirstEls, h]
        · show (markFirstInNode i rest).2
              = (nodeEls (Part.el e :: rest)).any (fun e => e.matchAttr = i)
          rw [nodeEls_cons_el, ih.2]
          simp [h]

theorem markFirstEls_of_not_any (i : Nat) (els : List Elem)
    (h : els.any (fun e => e.matchAttr = i) = false) : markFirstEls i els = els := by
  induction els with
  | nil => rfl
  | cons e rest ih =>
    simp only [List.any_cons, Bool.or_eq_false_iff] at h
    have he : ¬ e.matchAttr = i := by
      intro hc
      rw [hc] at h
      simp at h
    simp [markFirstEls, he, ih h.2]

theorem markFirstEls_append (i : Nat) (l1 l2 : List Elem) :
    markFirstEls i (l1 ++ l2)
      = (if l1.any (fun e => e.matchAttr = i) then markFirstEls i l1 ++ l2
         else l1 ++ markFirstEls i l2) := by
  induction l1 with
  | nil => simp
  | cons e rest ih =>
    by_cases h : e.matchAttr = i
    · simp [markFirstEls, h]
    · simp only [List.cons_append, markFirstEls, if_neg h, List.any_cons, List.append_eq]
      rw [ih]
      by_cases hr : rest.any (fun e => e.matchAttr = i) <;> simp [h, hr]

theorem markFirstInPage_els (i : Nat) (pg : Page) :
    pageEls (markFirstInPage i pg).1 = markFirstEls i (pageEls pg) ∧
      (markFirstInPage i pg).2 = (pageEls pg).any (fun e => e.matchAttr = i) := by
  induction pg with
  | nil => exact ⟨rfl, rfl⟩
  | cons n rest ih =>
    obtain ⟨hn1, hn2⟩ := markFirstInNode_els i n
    simp only [markFirstInPage]
    split
    · rename_i hfound
      rw [hn2] at hfound
      constructor
      · show pageEls ((markFirstInNode i n).1 :: rest) = _
        rw [pageEls_cons, pageEls_cons, hn1, markFirstEls_append, if_pos hfound]
      · show true = (pageEls (n :: rest)).any (fun e => e.matchAttr = i)
        rw [pageEls_cons]
        simp [List.any_append, hfound]
    · rename_i hfound
      rw [hn2] at hfound
      have hfalse : (nodeEls n).any (fun e => e.matchAttr = i) = false := by
        revert hfound
        cases (nodeEls n).any (fun e => e.matchAttr = i) <;> simp
      constructor
      · show pageEls ((markFirstInNode i n).1 :: (markFirstInPage i rest).1) = _
        rw [pageEls_cons, pageEls_cons, hn1, markFirstEls_append, if_neg (by simp [hfalse]),
          markFirstEls_of_not_any i _ hfalse, ih.1]
      · show (markFirstInPage i rest).2 = (pageEls (n :: rest)).any (fun e => e.matchAttr = i)
        rw [pageEls_cons, ih.2]
        simp [List.any_append, hfalse]

theorem markFirstInDoc_els (i : Nat) (d : Doc) :
    docEls (markFirstInDoc i d).1 = markFirstEls i (docEls d) ∧
      (markFirstInDoc i d).2 = (docEls d).any (fun e => e.matchAttr = i) := by
  induction d with
  | nil => exact ⟨rfl, rfl⟩
  | cons pg rest ih =>
    obtain ⟨hp1, hp2⟩ := markFirstInPage_els i pg
    simp only [markFirstInDoc]
    split
    · rename_i hfound
      rw [hp2] at hfound
      constructor
      · show docEls ((markFirstInPage i pg).1 :: rest) = _
        rw [docEls_cons, docEls_cons, hp1, markFirstEls_append, if_pos hfound]
      · show true = (docEls (pg :: rest)).any (fun e => e.matchAttr = i)
        rw [docEls_cons]
        simp [List.any_append, hfound]
    · rename_i hfound
      rw [hp2] at hfound
      have hfalse : (pageEls pg).any (fun e => e.matchAttr = i) = false := by
        revert hfound
        cases (pageEls pg).any (fun e => e.matchAttr = i) <;> simp
      constructor
      · show docEls ((markFirstInPage i pg).1 :: (markFirstInDoc i rest).1) = _
        rw [docEls_cons, docEls_cons, hp1, markFirstEls_append, if_neg (by simp [hfalse]),
          markFirstEls_of_not_any i _ hfalse, ih.1]
      · show (markFirstInDoc i rest).2 = (docEls (pg :: rest)).any (fun e => e.matchAttr = i)
        rw [docEls_cons, ih.2]
        simp [List.any_append, hfalse]

theorem unmarkElem_of_highlight (e : Elem) (h : e.cls = HClass.highlight) :
    unmarkElem e = e := by
  simp [unmarkElem, h]

theorem markFirstEls_attrs (i : Nat) (els : List Elem) :
    (markFirstEls i els).map Elem.matchAttr = els.map Elem.matchAttr := by
  induction els with
  | nil => rfl
  | cons e rest ih =>
    by_cases h : e.matchAttr = i <;> simp [markFirstEls, h, ih]

theorem markFirstEls_eids (i : Nat) (els : List Elem) :
    (markFirstEls i els).map Elem.eid = els.map Elem.eid := by
  induction els with
  | nil => rfl
  | cons e rest ih =>
    by_cases h : e.matchAttr = i <;> simp [markFirstEls, h, ih]

theorem markFirstEls_find (i : Nat) (els : List Elem) :
    (markFirstEls i els).find? (fun e => e.matchAttr = i)
      = (els.find? (fun e => e.matchAttr = i)).map
          (fun e => ⟨e.eid, HClass.current, e.matchAttr, e.text⟩) := by
  induction els with
  | nil => rfl
  | cons e rest ih =>
    by_cases h : e.matchAttr = i
    · have hstep : markFirstEls i (e :: rest)
          = Elem.mk e.eid HClass.current e.matchAttr e.text :: rest := by
        simp [markFirstEls, h]
      rw [hstep, List.find?_cons_of_pos _ (by simp [h]), List.find?_cons_of_pos _ (by simp [h])]
      rfl
    · have hstep : markFirstEls i (e :: rest) = e :: markFirstEls i rest := by
        simp [markFirstEls, h]
      rw [hstep, List.find?_cons_of_neg _ (by simp [h]), List.find?_cons_of_neg _ (by simp [h])]
      exact ih

theorem performSearch_doc_eq (st : SearchState) (term : List Char)
    (hload : st.pdfDocLoaded = true) (hterm : term ≠ []) :
    (performSearch st term).doc
      = (if 0 < (searchPages (jsToLower term) term.length 0 []
              st.nextId (clearDoc st.doc)).2.1.length
         then (markFirstInDoc 0 (unmarkDoc
             (searchPages (jsToLower term) term.length 0 [] st.nextId (clearDoc st.doc)).1)).1
         else (searchPages (jsToLower term) term.length 0 [] st.nextId (clearDoc st.doc)).1) := by
  simp only [performSearch]
  rw [if_neg (by simp [hload, hterm])]
  split
  · rename_i hpos
    simp only [highlightCurrentMatch]
    rw [if_pos ⟨le_refl (0 : Int), by exact_mod_cast hpos⟩]
    rfl
  · rfl

theorem clearDoc_plain (d : Doc) : ∀ pg ∈ clearDoc d, ∀ n ∈ pg, nodeEls n = [] := by
  intro pg hpg n hn
  simp only [clearDoc, List.mem_map] at hpg
  obtain ⟨pg0, -, hpg0⟩ := hpg
  rw [← hpg0] at hn
  simp only [List.mem_map] at hn
  obtain ⟨n0, -, hn0⟩ := hn
  rw [← hn0]
  exact nodeEls_clearNode n0

/-- C10: after `performSearch`, every stored match's element reference
is detached (its object identity does not occur among the elements of
the live document); the document's `data-search-match` attribute values
are exactly `0, 1, ..., count - 1`, each occurring on exactly one
element; and when matches exist, current-match highlighting and
scrolling locate the match element by an attribute query on the live
document — the located element carries the current-match class and is
distinct (as an object) from every stored element reference. -/
theorem search_matches_detached (st : SearchState) (term : List Char) :
    (∀ m ∈ (performSearch st term).searchMatches,
        m.element.eid ∉ docElemIds (performSearch st term).doc) ∧
      docAttrs (performSearch st term).doc
        = List.range (performSearch st term).searchMatches.length ∧
      (∀ i < (performSearch st term).searchMatches.length,
        (docAttrs (performSearch st term).doc).count i = 1) ∧
      ((performSearch st term).searchMatches ≠ [] →
        ∃ e, scrollTargetElem (performSearch st term) = some e ∧
          queryMatchAttr (performSearch st term).doc 0 = some e ∧
          e.matchAttr = 0 ∧ e.cls = HClass.current ∧
          ∀ m ∈ (performSearch st term).searchMatches, e.eid ≠ m.element.eid) := by
  have hcount : ∀ (l : List Nat) (len : Nat), l = List.range len →
      ∀ i < len, l.count i = 1 := by
    intro l len hl i hi
    rw [hl]
    exact List.count_eq_one_of_mem (List.nodup_range len) (List.mem_range.mpr hi)
  by_cases hguard : st.pdfDocLoaded = false ∨ term = []
  · have hps : performSearch st term
        = { st with doc := clearDoc st.doc, searchMatches := ([] : List SMatch),
                    currentSearchIndex := (-1 : Int) } := by
      simp only [performSearch]
      rw [if_pos hguard]
    rw [hps]
    refine ⟨?_, ?_, ?_, ?_⟩
    · intro m hm
      simp at hm
    · simp [docAttrs, docEls_clearDoc]
    · intro i hi
      simp at hi
    · intro hne
      exact absurd rfl hne
  · push_neg at hguard
    have hload : st.pdfDocLoaded = true := by
      rcases hb : st.pdfDocLoaded with - | -
      · exact absurd hb hguard.1
      · rfl
    have hterm : term ≠ [] := hguard.2
    have hma := performSearch_matches_eq st term hload hterm
    have hdoc := performSearch_doc_eq st term hload hterm
    have hplain := clearDoc_plain st.doc
    have hels : docEls (searchPages (jsToLower term) term.length 0 []
          st.nextId (clearDoc st.doc)).1
        = ((searchPages (jsToLower term) term.length 0 []
            st.nextId (clearDoc st.doc)).2.1).map bumpElem := by
      have := searchPages_els (jsToLower term) term.length (clearDoc st.doc) 0 [] st.nextId hplain
      simpa using this
    have hattrs := searchPages_attrList term (clearDoc st.doc) 0 [] st.nextId rfl
    have hmeta : ∀ m ∈ (searchPages (jsToLower term) term.length 0 []
          st.nextId (clearDoc st.doc)).2.1,
        m.element.eid % 2 = st.nextId % 2 ∧ m.element.cls = HClass.highlight := by
      have := (searchPages_meta (jsToLower term) term.length (clearDoc st.doc) 0 [] st.nextId).2
      simpa using this
    by_cases hpos : 0 < (searchPages (jsToLower term) term.length 0 []
        st.nextId (clearDoc st.doc)).2.1.length
    · rw [if_pos hpos] at hdoc
      have hclsAll : ∀ e ∈ docEls (searchPages (jsToLower term) term.length 0 []
            st.nextId (clearDoc st.doc)).1, e.cls = HClass.highlight := by
        intro e he
        rw [hels] at he
        obtain ⟨m, hm, hme⟩ := List.mem_map.mp he
        rw [← hme]
        exact (hmeta m hm).2
      have hunmark : docEls (unmarkDoc (searchPages (jsToLower term) term.length 0 []
            st.nextId (clearDoc st.doc)).1)
          = docEls (searchPages (jsToLower term) term.length 0 []
            st.nextId (clearDoc st.doc)).1 := by
        rw [docEls_unmarkDoc]
        calc (docEls (searchPages (jsToLower term) term.length 0 []
                st.nextId (clearDoc st.doc)).1).map unmarkElem
            = (docEls (searchPages (jsToLower term) term.length 0 []
                st.nextId (clearDoc st.doc)).1).map id := by
              apply List.map_congr_left
              intro e he
              rw [unmarkElem_of_highlight e (hclsAll e he)]
              rfl
          _ = _ := List.map_id _
      have hdocEls : docEls (performSearch st term).doc
          = markFirstEls 0 (docEls (searchPages (jsToLower term) term.length 0 []
              st.nextId (clearDoc st.doc)).1) := by
        rw [hdoc, (markFirstInDoc_els 0 _).1, hunmark]
      have hattrsDoc : docAttrs (performSearch st term).doc
          = List.range (performSearch st term).searchMatches.length := by
        rw [docAttrs, hdocEls, markFirstEls_attrs, hels, hma]
        rw [List.map_map]
        rw [show (Elem.matchAttr ∘ bumpElem)
            = (fun m : SMatch => m.element.matchAttr) from rfl]
        exact hattrs
      have hidsDoc : docElemIds (performSearch st term).doc
          = ((searchPages (jsToLower term) term.length 0 []
              st.nextId (clearDoc st.doc)).2.1).map (fun m => m.element.eid + 1) := by
        rw [docElemIds, hdocEls, markFirstEls_eids, hels, List.map_map]
        rfl
      refine ⟨?_, hattrsDoc, hcount _ _ hattrsDoc, ?_⟩
      · intro m hm hmem
        rw [hidsDoc] at hmem
        obtain ⟨m2, hm2, hm2e⟩ := List.mem_map.mp hmem
        rw [hma] at hm
        have p1 := (hmeta m hm).1
        have p2 := (hmeta m2 hm2).1
        omega
      · intro hne
        have hidx : (performSearch st term).currentSearchIndex = 0 := by
          rcases performSearch_matches_idx st term with ⟨h1, -⟩ | ⟨-, h2⟩
          · exact absurd h1 hne
          · exact h2
        have hlen : 0 < (performSearch st term).searchMatches.length :=
          List.length_pos.mpr hne
        have hfind : ∃ e0, (docEls (searchPages (jsToLower term) term.length 0 []
              st.nextId (clearDoc st.doc)).1).find? (fun e => e.matchAttr = 0) = some e0 := by
          have hmem0 : (0 : Nat) ∈ (docEls (searchPages (jsToLower term) term.length 0 []
              st.nextId (clearDoc st.doc)).1).map Elem.matchAttr := by
            rw [hels, List.map_map,
              show (Elem.matchAttr ∘ bumpElem)
                = (fun m : SMatch => m.element.matchAttr) from rfl]
            rw [show ((searchPages (jsToLower term) term.length 0 []
                st.nextId (clearDoc st.doc)).2.1).map (fun m : SMatch => m.element.matchAttr)
                = attrList (searchPages (jsToLower term) term.length 0 []
                  st.nextId (clearDoc st.doc)).2.1 from rfl]
            rw [hattrs]
            exact List.mem_range.mpr hpos
          obtain ⟨e0, he0, he0a⟩ := List.mem_map.mp hmem0
          have : ((docEls (searchPages (jsToLower term) term.length 0 []
              st.nextId (clearDoc st.doc)).1).find? (fun e => e.matchAttr = 0)).isSome := by
            rw [List.find?_isSome]
            exact ⟨e0, he0, by simp [he0a]⟩
          obtain ⟨e1, he1⟩ := Option.isSome_iff_exists.mp this
          exact ⟨e1, he1⟩
        obtain ⟨e0, he0⟩ := hfind
        have he0attr : e0.matchAttr = 0 := by
          have := List.find?_some he0
          simpa using this
        have he0mem : e0 ∈ docEls (searchPages (jsToLower term) term.length 0 []
            st.nextId (clearDoc st.doc)).1 := List.mem_of_find?_eq_some he0
        refine ⟨⟨e0.eid, HClass.current, e0.matchAttr, e0.text⟩, ?_, ?_, by simp [he0attr],
          rfl, ?_⟩
        · rw [scrollTargetElem, if_pos ⟨by rw [hidx], by rw [hidx]; exact_mod_cast hlen⟩, hidx]
          show queryMatchAttr (performSearch st term).doc 0 = _
          rw [queryMatchAttr, hdocEls, markFirstEls_find, he0]
          rfl
        · rw [queryMatchAttr, hdocEls, markFirstEls_find, he0]
          rfl
        · intro m hm
          rw [hma] at hm
          rw [hels] at he0mem
          obtain ⟨m2, hm2, hm2e⟩ := List.mem_map.mp he0mem
          have p1 := (hmeta m hm).1
          have p2 := (hmeta m2 hm2).1
          have heq : e0.eid = m2.element.eid + 1 := by
            rw [← hm2e]
            rfl
          simp only []
          omega
    · rw [if_neg hpos] at hdoc
      have hnil : (searchPages (jsToLower term) term.length 0 []
          st.nextId (clearDoc st.doc)).2.1 = [] := by
        have : (searchPages (jsToLower term) term.length 0 []
            st.nextId (clearDoc st.doc)).2.1.length = 0 := by omega
        exact List.length_eq_zero.mp this
      have hEls : docEls (performSearch st term).doc = [] := by
        rw [hdoc, hels, hnil]
        rfl
      refine ⟨?_, ?_, ?_, ?_⟩
      · intro m hm
        rw [hma, hnil] at hm
        simp at hm
      · rw [docAttrs, hEls, hma, hnil]
        rfl
      · intro i hi
        rw [hma, hnil] at hi
        simp at hi
      · intro hne
        rw [hma, hnil] at hne
        exact absurd rfl hne

/-- Witness for C10 at a concrete one-page, one-node document containing
the term cat. -/
theorem search_matches_detached_witness :
    (performSearch (initState [[[Part.txt (("the cat").toList)]]] true)
        (("cat").toList)).searchMatches ≠ [] ∧
      ∃ e, scrollTargetElem (performSearch (initState [[[Part.txt (("the cat").toList)]]] true)
            (("cat").toList)) = some e ∧
        queryMatchAttr (performSearch (initState [[[Part.txt (("the cat").toList)]]] true)
            (("cat").toList)).doc 0 = some e ∧
        e.matchAttr = 0 ∧ e.cls = HClass.current ∧
        ∀ m ∈ (performSearch (initState [[[Part.txt (("the cat").toList)]]] true)
            (("cat").toList)).searchMatches, e.eid ≠ m.element.eid :=
  ⟨by decide,
   (search_matches_detached (initState [[[Part.txt (("the cat").toList)]]] true)
       (("cat").toList)).2.2.2 (by decide)⟩

end PdfViewer
